import Mathlib

/-!
Verification of the StreamlitPRO feed-ingestion core.

The Python sources under `modules/nowgoal_client.py` and `v2/v2/app.py` are
shallowly embedded below.  Python `float` values are modelled as exact
fractions (`Flt`, an integer numerator over a natural denominator): every
numeric literal flowing through the handicap pipeline is a short decimal, so
the exact-fraction semantics coincides with IEEE semantics at every branch
the claims exercise.  The one IEEE artifact that is observable in the claims
is the signed zero produced by `sign * bucket` in `_bucket_to_half`; it is
carried explicitly as a sign bit alongside the fraction (see
`NG.bucket_to_half`).  Strings are Lean `String`s; stateful pieces (HTTP
download, the module-level cache, the query-time clock) are passed
explicitly as arguments.
-/

/-- Exact-fraction model of a Python `float`: value `num / den`.
All constructors used below keep `den` positive. -/
structure Flt where
  num : ℤ
  den : ℕ
deriving DecidableEq, Repr

namespace Flt

/-- Interpretation into `ℚ`, used only in proofs. -/
def toRat (x : Flt) : ℚ := (x.num : ℚ) / (x.den : ℚ)

/-- Embed an integer. -/
def ofInt (n : ℤ) : Flt := ⟨n, 1⟩

/-- The float `0.0`. -/
def zero : Flt := ⟨0, 1⟩

/-- Addition of fractions (no reduction; models float `+` exactly on decimals). -/
def add (x y : Flt) : Flt := ⟨x.num * y.den + y.num * x.den, x.den * y.den⟩

/-- Multiplication. -/
def mul (x y : Flt) : Flt := ⟨x.num * y.num, x.den * y.den⟩

/-- Negation. -/
def neg (x : Flt) : Flt := ⟨-x.num, x.den⟩

/-- Subtraction. -/
def sub (x y : Flt) : Flt := ⟨x.num * y.den - y.num * x.den, x.den * y.den⟩

/-- Absolute value. -/
def abs (x : Flt) : Flt := ⟨|x.num|, x.den⟩

/-- Division by a natural number (used for the arithmetic mean). -/
def divNat (x : Flt) (n : ℕ) : Flt := ⟨x.num, x.den * n⟩

/-- Value comparison `x <= y` by cross-multiplication. -/
def ble (x y : Flt) : Bool := decide (x.num * (y.den : ℤ) ≤ y.num * (x.den : ℤ))

/-- Value comparison `x < y`. -/
def blt (x y : Flt) : Bool := decide (x.num * (y.den : ℤ) < y.num * (x.den : ℤ))

/-- Value equality `x == y` (Python float equality compares values). -/
def beq (x y : Flt) : Bool := decide (x.num * (y.den : ℤ) = y.num * (x.den : ℤ))

/-- `math.floor`. `Int` division in Lean is Euclidean division, which is
floor division for the positive denominators maintained here. -/
def floor (x : Flt) : ℤ := x.num / (x.den : ℤ)

/-- Python `round` on the exact value: round half to even. -/
def pyRound (x : Flt) : ℤ :=
  let f := x.floor
  let r := x.sub (ofInt f)
  if r.blt ⟨1, 2⟩ then f
  else if (⟨1, 2⟩ : Flt).blt r then f + 1
  else if f % 2 = 0 then f else f + 1

theorem toRat_ofInt (n : ℤ) : (ofInt n).toRat = (n : ℚ) := by
  simp [ofInt, toRat]

theorem toRat_zero : (zero : Flt).toRat = 0 := by
  simp [zero, toRat]

theorem toRat_add (x y : Flt) (hx : x.den ≠ 0) (hy : y.den ≠ 0) :
    (x.add y).toRat = x.toRat + y.toRat := by
  have hx' : ((x.den : ℚ)) ≠ 0 := Nat.cast_ne_zero.mpr hx
  have hy' : ((y.den : ℚ)) ≠ 0 := Nat.cast_ne_zero.mpr hy
  simp only [add, toRat]
  push_cast
  field_simp

theorem toRat_mul (x y : Flt) (hx : x.den ≠ 0) (hy : y.den ≠ 0) :
    (x.mul y).toRat = x.toRat * y.toRat := by
  have hx' : ((x.den : ℚ)) ≠ 0 := Nat.cast_ne_zero.mpr hx
  have hy' : ((y.den : ℚ)) ≠ 0 := Nat.cast_ne_zero.mpr hy
  simp only [mul, toRat]
  push_cast
  field_simp

theorem toRat_neg (x : Flt) : (x.neg).toRat = -x.toRat := by
  simp [neg, toRat, neg_div]

theorem toRat_sub (x y : Flt) (hx : x.den ≠ 0) (hy : y.den ≠ 0) :
    (x.sub y).toRat = x.toRat - y.toRat := by
  have hx' : ((x.den : ℚ)) ≠ 0 := Nat.cast_ne_zero.mpr hx
  have hy' : ((y.den : ℚ)) ≠ 0 := Nat.cast_ne_zero.mpr hy
  simp only [sub, toRat]
  push_cast
  field_simp
  ring

theorem toRat_abs (x : Flt) : (x.abs).toRat = |x.toRat| := by
  simp only [abs, toRat]
  rw [abs_div]
  congr 1
  · push_cast
    rfl
  · exact (abs_of_nonneg (by positivity)).symm

theorem toRat_divNat (x : Flt) (n : ℕ) (hx : x.den ≠ 0) (hn : n ≠ 0) :
    (x.divNat n).toRat = x.toRat / (n : ℚ) := by
  have hx' : ((x.den : ℚ)) ≠ 0 := Nat.cast_ne_zero.mpr hx
  have hn' : ((n : ℚ)) ≠ 0 := Nat.cast_ne_zero.mpr hn
  simp only [divNat, toRat]
  push_cast
  field_simp

theorem ble_iff (x y : Flt) (hx : 0 < x.den) (hy : 0 < y.den) :
    x.ble y = true ↔ x.toRat ≤ y.toRat := by
  have hx' : (0 : ℚ) < (x.den : ℚ) := by exact_mod_cast hx
  have hy' : (0 : ℚ) < (y.den : ℚ) := by exact_mod_cast hy
  simp only [ble, toRat, decide_eq_true_eq]
  rw [div_le_div_iff hx' hy']
  constructor
  · intro h; exact_mod_cast h
  · intro h; exact_mod_cast h

theorem blt_iff (x y : Flt) (hx : 0 < x.den) (hy : 0 < y.den) :
    x.blt y = true ↔ x.toRat < y.toRat := by
  have hx' : (0 : ℚ) < (x.den : ℚ) := by exact_mod_cast hx
  have hy' : (0 : ℚ) < (y.den : ℚ) := by exact_mod_cast hy
  simp only [blt, toRat, decide_eq_true_eq]
  rw [div_lt_div_iff hx' hy']
  constructor
  · intro h; exact_mod_cast h
  · intro h; exact_mod_cast h

theorem beq_iff (x y : Flt) (hx : 0 < x.den) (hy : 0 < y.den) :
    x.beq y = true ↔ x.toRat = y.toRat := by
  have hx' : ((x.den : ℚ)) ≠ 0 := by positivity
  have hy' : ((y.den : ℚ)) ≠ 0 := by positivity
  simp only [beq, toRat, decide_eq_true_eq]
  rw [div_eq_div_iff hx' hy']
  constructor
  · intro h; exact_mod_cast h
  · intro h; exact_mod_cast h

theorem ble_eq (x y : Flt) (hx : 0 < x.den) (hy : 0 < y.den) :
    x.ble y = decide (x.toRat ≤ y.toRat) := by
  by_cases h : x.toRat ≤ y.toRat
  · simp [h, (ble_iff x y hx hy).mpr h]
  · have hne : x.ble y ≠ true := fun hc => h ((ble_iff x y hx hy).mp hc)
    simp [h, Bool.eq_false_iff.mpr hne]

theorem blt_eq (x y : Flt) (hx : 0 < x.den) (hy : 0 < y.den) :
    x.blt y = decide (x.toRat < y.toRat) := by
  by_cases h : x.toRat < y.toRat
  · simp [h, (blt_iff x y hx hy).mpr h]
  · have hne : x.blt y ≠ true := fun hc => h ((blt_iff x y hx hy).mp hc)
    simp [h, Bool.eq_false_iff.mpr hne]

theorem beq_eq (x y : Flt) (hx : 0 < x.den) (hy : 0 < y.den) :
    x.beq y = decide (x.toRat = y.toRat) := by
  by_cases h : x.toRat = y.toRat
  · simp [h, (beq_iff x y hx hy).mpr h]
  · have hne : x.beq y ≠ true := fun hc => h ((beq_iff x y hx hy).mp hc)
    simp [h, Bool.eq_false_iff.mpr hne]

theorem floor_eq (x : Flt) (hx : 0 < x.den) : x.floor = ⌊x.toRat⌋ := by
  simp only [floor, toRat]
  exact (Rat.floor_intCast_div_natCast x.num x.den).symm

/-- `ℚ`-level counterpart of `pyRound`, for proofs. -/
def roundHE (q : ℚ) : ℤ :=
  if q - ⌊q⌋ < 1/2 then ⌊q⌋
  else if (1/2 : ℚ) < q - ⌊q⌋ then ⌊q⌋ + 1
  else if ⌊q⌋ % 2 = 0 then ⌊q⌋ else ⌊q⌋ + 1

theorem pyRound_eq (x : Flt) (hx : 0 < x.den) : x.pyRound = roundHE x.toRat := by
  have hden : x.den ≠ 0 := by omega
  have hfl : x.floor = ⌊x.toRat⌋ := floor_eq x hx
  have hsub : (x.sub (ofInt x.floor)).toRat = x.toRat - (x.floor : ℚ) := by
    rw [toRat_sub x (ofInt x.floor) hden (by simp [ofInt]), toRat_ofInt]
  have hsden : 0 < (x.sub (ofInt x.floor)).den := by
    simp only [sub, ofInt, mul_one]
    exact hx
  have hhalf : ((⟨1, 2⟩ : Flt)).toRat = 1/2 := by norm_num [toRat]
  simp only [pyRound, roundHE]
  rw [blt_eq _ _ hsden (by norm_num), blt_eq _ _ (by norm_num) hsden]
  rw [hsub, hhalf, hfl]
  by_cases h1 : x.toRat - (⌊x.toRat⌋ : ℚ) < 1/2
  · simp [h1]
  · by_cases h2 : (1/2 : ℚ) < x.toRat - (⌊x.toRat⌋ : ℚ)
    · simp [h1, h2]
    · simp [h1, h2]

theorem roundHE_intCast (m : ℤ) : roundHE (m : ℚ) = m := by
  simp [roundHE, Int.floor_intCast]

end Flt

/-! ### Character and digit utilities -/

/-- The decimal digit character for `n < 10`. -/
def digitChar (n : ℕ) : Char := Char.ofNat (48 + n)

/-- Numeric value of a digit character. -/
def digitVal (c : Char) : ℕ := c.toNat - 48

/-- Value of a digit string, most significant digit first. -/
def digitsToNat (cs : List Char) : ℕ := cs.foldl (fun a c => a * 10 + digitVal c) 0

/-- Fuel-driven loop producing the decimal digits of `n` (most significant
first), prepended to `acc`.  Structural recursion on the fuel keeps it
kernel-reducible. -/
def natDigitsLoop : ℕ → ℕ → List Char → List Char
  | 0, _, acc => acc
  | fuel + 1, n, acc =>
    if n < 10 then digitChar n :: acc
    else natDigitsLoop fuel (n / 10) (digitChar (n % 10) :: acc)

/-- Decimal rendering of a natural number. -/
def natDigits (n : ℕ) : List Char := natDigitsLoop (n + 1) n []

/-- Decimal rendering of an integer, with a leading minus sign if negative
(Python `str(int)`). -/
def intDigits (n : ℤ) : List Char :=
  if n < 0 then '-' :: natDigits n.natAbs else natDigits n.natAbs

/-- Python `str.strip()`: drop whitespace from both ends. -/
def trimChars (cs : List Char) : List Char :=
  ((cs.dropWhile Char.isWhitespace).reverse.dropWhile Char.isWhitespace).reverse

/-- Python `str.replace(a, b)` for single characters. -/
def replaceChar (a b : Char) (cs : List Char) : List Char :=
  cs.map (fun c => if c = a then b else c)

/-- Python `re.split`/`str.split` on a single separator character; keeps
empty fragments, like Python. -/
def splitOnChar (sep : Char) : List Char → List (List Char)
  | [] => [[]]
  | c :: rest =>
    match splitOnChar sep rest with
    | [] => [[]]
    | r :: rs => if c = sep then [] :: r :: rs else (c :: r) :: rs

/-- Collect `some` results, failing on the first `none` (the fragment loop
of `_parse_handicap_to_float` returns `None` as soon as one fragment fails
to parse). -/
def mapMOpt {α β : Type} (g : α → Option β) : List α → Option (List β)
  | [] => some []
  | a :: as =>
    match g a with
    | none => none
    | some b =>
      match mapMOpt g as with
      | none => none
      | some bs => some (b :: bs)

/-! ### `modules/nowgoal_client.py` — handicap normalizer -/

namespace NG

/-- `_parse_number_clean`, cleaning stage: `txt = str(text).strip()`, then
`replace(",", ".")`, `replace("+", "")`, `replace(" ", "")`.  (This variant
performs no Unicode-minus replacement.) -/
def cleanNumText (cs : List Char) : List Char :=
  ((replaceChar ',' '.' (trimChars cs)).filter (fun c => c ≠ '+')).filter
    (fun c => c ≠ ' ')

/-- Body of the pattern `\d+(?:\.\d+)?` together with Python `float` of the
matched text: one-or-more digits, optionally a dot and one-or-more digits,
nothing else.  Returns the exact decimal value. -/
def matchNumCore (cs : List Char) : Option Flt :=
  let ds := cs.takeWhile Char.isDigit
  let rest := cs.dropWhile Char.isDigit
  if ds.isEmpty then none
  else
    match rest with
    | [] => some ⟨(digitsToNat ds : ℤ), 1⟩
    | c :: rest2 =>
      if c = '.' then
        let fs := rest2.takeWhile Char.isDigit
        let rest3 := rest2.dropWhile Char.isDigit
        if fs.isEmpty then none
        else if rest3.isEmpty then
          some (Flt.add ⟨(digitsToNat ds : ℤ), 1⟩ ⟨(digitsToNat fs : ℤ), 10 ^ fs.length⟩)
        else none
      else none

/-- The anchored pattern `^[+-]?\d+(?:\.\d+)?$` plus `float()` of the match. -/
def matchNumSigned (cs : List Char) : Option Flt :=
  match cs with
  | [] => none
  | c :: rest =>
    if c = '-' then (matchNumCore rest).map Flt.neg
    else if c = '+' then matchNumCore rest
    else matchNumCore (c :: rest)

/-- `_parse_number_clean` from `modules/nowgoal_client.py`. -/
def parse_number_clean (text : Option String) : Option Flt :=
  match text with
  | none => none
  | some s => matchNumSigned (cleanNumText s.data)

/-- `_parse_handicap_to_float` from `modules/nowgoal_client.py`: split lines
(`"0/0.5"`) are averaged fragment-wise, plain values go through
`_parse_number_clean`. -/
def parse_handicap_to_float (text : Option String) : Option Flt :=
  match text with
  | none => none
  | some s =>
    let cleaned := trimChars s.data
    if cleaned.contains '/' then
      let parts := (splitOnChar '/' cleaned).filter (fun p => ¬p.isEmpty)
      match mapMOpt (fun p => matchNumSigned (cleanNumText p)) parts with
      | none => none
      | some nums =>
        if nums.isEmpty then none
        else some (Flt.divNat (nums.foldl Flt.add Flt.zero) nums.length)
    else matchNumSigned (cleanNumText cleaned)

/-- `close(a, b)` from `_bucket_to_half`: `abs(a - b) < 1e-6`. -/
def fclose (a b : Flt) : Bool := ((a.sub b).abs).blt ⟨1, 1000000⟩

/-- `_bucket_to_half`.  Returns the result float together with its IEEE sign
bit: Python computes `sign * bucket` as a float, and when `bucket == 0.0`
and `sign == -1.0` the product is the negative zero `-0.0`, which the
fraction alone cannot represent.  The sign bit equals `value < 0` for every
non-zero `value` (the magnitude `bucket` is never negative). -/
def bucket_to_half (value : Flt) : Flt × Bool :=
  if value.beq Flt.zero then (Flt.zero, false)
  else
    let neg := value.blt Flt.zero
    let sign : Flt := if neg then ⟨-1, 1⟩ else ⟨1, 1⟩
    let absValue := value.abs
    let base : ℤ := (absValue.add ⟨1, 1000000000⟩).floor
    let fraction := absValue.sub (Flt.ofInt base)
    if fclose fraction Flt.zero then (sign.mul (Flt.ofInt base), neg)
    else if fclose fraction ⟨1, 2⟩ || fclose fraction ⟨1, 4⟩ || fclose fraction ⟨3, 4⟩ then
      (sign.mul ((Flt.ofInt base).add ⟨1, 2⟩), neg)
    else
      let bucket : Flt := ⟨(absValue.mul ⟨2, 1⟩).pyRound, 2⟩
      let fraction2 := bucket.sub (Flt.ofInt bucket.floor)
      if fclose fraction2 Flt.zero &&
          ((absValue.sub ((Flt.ofInt bucket.floor).add ⟨1, 4⟩)).abs.blt ⟨26, 100⟩ ||
           (absValue.sub ((Flt.ofInt bucket.floor).add ⟨3, 4⟩)).abs.blt ⟨26, 100⟩) then
        (sign.mul ((Flt.ofInt bucket.floor).add ⟨1, 2⟩), neg)
      else (sign.mul bucket, neg)

/-- Python `f"{b:.1f}"` applied to the float `b` (fraction plus IEEE sign
bit): round the magnitude to one decimal place and render it with exactly
one digit after the dot, prefixing a minus sign exactly when the sign bit is
set (so the negative zero renders as `"-0.0"`). -/
def fmtDot1 (b : Flt) (negBit : Bool) : String :=
  let a : ℤ := ((b.abs).mul ⟨10, 1⟩).pyRound
  ⟨(if negBit then ['-'] else []) ++ natDigits (a.toNat / 10) ++
    '.' :: natDigits (a.toNat % 10)⟩

/-- `normalize_handicap_to_half_bucket_str` from `modules/nowgoal_client.py`. -/
def normalize_handicap_to_half_bucket_str (text : Option String) : Option String :=
  match parse_handicap_to_float text with
  | none => none
  | some value =>
    let (bucket, negBit) := bucket_to_half value
    some (fmtDot1 bucket negBit)

end NG

/-! ### `v2/v2/app.py` — handicap normalizer variant -/

namespace V2

/-- `_parse_number_clean` from `v2/v2/app.py`: identical to the
`modules/nowgoal_client.py` variant except that it first unifies the
Unicode minus `−` (U+2212) to the ASCII minus. -/
def cleanNumText (cs : List Char) : List Char :=
  NG.cleanNumText (replaceChar '−' '-' (trimChars cs))

/-- `_parse_number_clean` (v2): clean, then match `^[+-]?\d+(?:\.\d+)?$` and
take the float value. -/
def parse_number_clean (text : Option String) : Option Flt :=
  match text with
  | none => none
  | some s => NG.matchNumSigned (cleanNumText s.data)

/-- `_parse_handicap_to_float` from `v2/v2/app.py`.  The non-split branch
additionally strips `+` before delegating (`t.replace('+', '')`), which the
cleaning stage would do anyway. -/
def parse_handicap_to_float (text : Option String) : Option Flt :=
  match text with
  | none => none
  | some s =>
    let t := trimChars s.data
    if t.contains '/' then
      let parts := (splitOnChar '/' t).filter (fun p => ¬p.isEmpty)
      match mapMOpt (fun p => NG.matchNumSigned (cleanNumText p)) parts with
      | none => none
      | some nums =>
        if nums.isEmpty then none
        else some (Flt.divNat (nums.foldl Flt.add Flt.zero) nums.length)
    else NG.matchNumSigned (cleanNumText (t.filter (fun c => c ≠ '+')))

/-- `normalize_handicap_to_half_bucket_str` from `v2/v2/app.py`; its
`_bucket_to_half` and the final `f"{b:.1f}"` are line-for-line identical to
the `modules/nowgoal_client.py` versions, so those embeddings are shared. -/
def normalize_handicap_to_half_bucket_str (text : Option String) : Option String :=
  match parse_handicap_to_float text with
  | none => none
  | some value =>
    let (bucket, negBit) := NG.bucket_to_half value
    some (NG.fmtDot1 bucket negBit)

end V2

/-! ### `modules/nowgoal_client.py` — literal tokenizer -/

/-- A typed value produced by `_parse_js_array` (and consumed by
`_build_entry`): Python `str`, `int`, `float`, `bool` or `None`. -/
inductive JSVal where
  | str (s : String)
  | int (n : ℤ)
  | float (x : Flt)
  | bool (b : Bool)
  | null
deriving DecidableEq, Repr

/-- Python `int(s)` on a string: strip, optional sign, one-or-more digits. -/
def pyIntOfChars (cs : List Char) : Option ℤ :=
  let t := trimChars cs
  match t with
  | [] => none
  | c :: rest =>
    let body := if c = '+' || c = '-' then rest else c :: rest
    if !body.isEmpty && body.all Char.isDigit then
      some ((if c = '-' then -1 else 1) * (digitsToNat body : ℤ))
    else none

/-- Exponent suffix of a Python float literal: optional sign then digits;
scales the mantissa by the corresponding power of ten. -/
def pyFloatExpPart (m : Flt) (cs : List Char) : Option Flt :=
  let (sgn, body) :=
    match cs with
    | c :: rest => if c = '+' || c = '-' then (c, rest) else (' ', c :: rest)
    | [] => (' ', [])
  if !body.isEmpty && body.all Char.isDigit then
    let e := digitsToNat body
    some (if sgn = '-' then ⟨m.num, m.den * 10 ^ e⟩ else ⟨m.num * 10 ^ e, m.den⟩)
  else none

/-- Unsigned body of a Python float literal: `digits[.digits][exp]`,
`digits.[exp]` or `.digits[exp]`. -/
def pyFloatBody (cs : List Char) : Option Flt :=
  let ds := cs.takeWhile Char.isDigit
  let rest := cs.dropWhile Char.isDigit
  match rest with
  | [] => if ds.isEmpty then none else some ⟨(digitsToNat ds : ℤ), 1⟩
  | c :: rest2 =>
    if c = '.' then
      let fs := rest2.takeWhile Char.isDigit
      let rest3 := rest2.dropWhile Char.isDigit
      if ds.isEmpty && fs.isEmpty then none
      else
        let m : Flt := Flt.add ⟨(digitsToNat ds : ℤ), 1⟩ ⟨(digitsToNat fs : ℤ), 10 ^ fs.length⟩
        match rest3 with
        | [] => some m
        | e :: rest4 => if e = 'e' || e = 'E' then pyFloatExpPart m rest4 else none
    else if (c = 'e' || c = 'E') && !ds.isEmpty then
      pyFloatExpPart ⟨(digitsToNat ds : ℤ), 1⟩ rest2
    else none

/-- Python `float(s)` on a string: strip, optional sign, decimal body with
optional exponent.  (The `inf`/`nan` spellings are not modelled; no feed
value nor claim exercises them.) -/
def pyFloatOfChars (cs : List Char) : Option Flt :=
  let t := trimChars cs
  match t with
  | [] => none
  | c :: rest =>
    if c = '-' then (pyFloatBody rest).map Flt.neg
    else if c = '+' then pyFloatBody rest
    else pyFloatBody (c :: rest)

/-- Bare-token classification from `_parse_js_array`: empty or `undefined`
is `None`; `True`/`False` are booleans; a token containing `.` is tried as a
float, otherwise as an int; on parse failure the raw string is kept. -/
def classifyBare (s : String) : JSVal :=
  if s = "" || s = "undefined" then .null
  else if s = "True" || s = "False" then .bool (s = "True")
  else if s.data.contains '.' then
    match pyFloatOfChars s.data with
    | some x => .float x
    | none => .str s
  else
    match pyIntOfChars s.data with
    | some n => .int n
    | none => .str s

/-- A flushed tokenizer segment: quoted (`("str", token)`) or bare
(`("token", token.strip())`). -/
inductive RawTok where
  | strTok (cs : List Char)
  | bareTok (cs : List Char)
deriving DecidableEq, Repr

/-- The character scan of `_parse_js_array`: one left-to-right pass with an
in-string flag and an escape flag.  Note that a quote opening a string does
not clear the accumulated bare text, and the final accumulated token is
always flushed. -/
def scanJS : List Char → List Char → Bool → Bool → List RawTok
  | [], token, inString, _ =>
    if inString then [.strTok token] else [.bareTok (trimChars token)]
  | ch :: rest, token, inString, escaped =>
    if inString then
      if escaped then scanJS rest (token ++ [ch]) true false
      else if ch = '\\' then scanJS rest token true true
      else if ch = '\'' then .strTok token :: scanJS rest [] false false
      else scanJS rest (token ++ [ch]) true false
    else
      if ch = '\'' then scanJS rest token true false
      else if ch = ',' then .bareTok (trimChars token) :: scanJS rest [] false false
      else scanJS rest (token ++ [ch]) false false

/-- `_parse_js_array` from `modules/nowgoal_client.py`. -/
def parse_js_array (entry : String) : List JSVal :=
  (scanJS entry.data [] false false).map fun t =>
    match t with
    | .strTok cs => .str ⟨cs⟩
    | .bareTok cs => classifyBare ⟨cs⟩

/-! ### Dates: `datetime.strptime(..., "%Y-%m-%d %H:%M:%S")` and ordering -/

/-- A naive `datetime.datetime` value. -/
structure DateTime where
  y : ℕ
  mo : ℕ
  d : ℕ
  h : ℕ
  mi : ℕ
  s : ℕ
deriving DecidableEq, Repr

/-- Gregorian leap-year test. -/
def isLeap (y : ℕ) : Bool := (y % 4 = 0 && y % 100 ≠ 0) || y % 400 = 0

/-- Length of a month. -/
def daysInMonth (y mo : ℕ) : ℕ :=
  if mo = 2 then (if isLeap y then 29 else 28)
  else if mo = 4 || mo = 6 || mo = 9 || mo = 11 then 30
  else 31

/-- Grab one or two leading digits (greedy), as `strptime`'s numeric
directives do. -/
def grabDigits2 (cs : List Char) : Option (ℕ × List Char) :=
  let ds := (cs.take 2).takeWhile Char.isDigit
  if ds.isEmpty then none else some (digitsToNat ds, cs.drop ds.length)

/-- `datetime.strptime(text, "%Y-%m-%d %H:%M:%S")`: a four-digit year,
one-or-two-digit month/day/hour/minute/second with literal separators
(whitespace in the format matches a run of whitespace), full-string match,
and calendar validation as performed by the `datetime` constructor. -/
def strptimeYmdHMS (text : String) : Option DateTime := do
  let cs := text.data
  let ys := cs.take 4
  if ys.length = 4 && ys.all Char.isDigit then
    let y := digitsToNat ys
    match cs.drop 4 with
    | '-' :: r1 => do
      let (mo, r2) ← grabDigits2 r1
      match r2 with
      | '-' :: r3 => do
        let (d, r4) ← grabDigits2 r3
        let r5 := r4.dropWhile Char.isWhitespace
        if r4.length = r5.length then none
        else do
          let (h, r6) ← grabDigits2 r5
          match r6 with
          | ':' :: r7 => do
            let (mi, r8) ← grabDigits2 r7
            match r8 with
            | ':' :: r9 => do
              let (s, r10) ← grabDigits2 r9
              if r10.isEmpty && 1 ≤ mo && mo ≤ 12 && 1 ≤ d && d ≤ daysInMonth y mo &&
                  h ≤ 23 && mi ≤ 59 && s ≤ 59 then
                some ⟨y, mo, d, h, mi, s⟩
              else none
            | _ => none
          | _ => none
      | _ => none
    | _ => none
  else none

/-- `datetime` comparison (lexicographic on the components), strict. -/
def dtLt (a b : DateTime) : Bool :=
  if a.y ≠ b.y then a.y < b.y
  else if a.mo ≠ b.mo then a.mo < b.mo
  else if a.d ≠ b.d then a.d < b.d
  else if a.h ≠ b.h then a.h < b.h
  else if a.mi ≠ b.mi then a.mi < b.mi
  else a.s < b.s

/-- `datetime` comparison, non-strict. -/
def dtLe (a b : DateTime) : Bool := dtLt a b || a = b

/-! ### `modules/nowgoal_client.py` — coercions and the record builder -/

/-- Python `int(float)` truncates toward zero. -/
def Flt.trunc (x : Flt) : ℤ := Int.div x.num x.den

/-- `_coerce_int`: `None` and `""` give `None`; otherwise `int(value)` with
failures swallowed. -/
def coerce_int (v : JSVal) : Option ℤ :=
  match v with
  | .null => none
  | .str s => if s = "" then none else pyIntOfChars s.data
  | .int n => some n
  | .float x => some x.trunc
  | .bool b => some (if b then 1 else 0)

/-- `_coerce_float`: `None` and `""` give `None`; otherwise `float(value)`
with failures swallowed. -/
def coerce_float (v : JSVal) : Option Flt :=
  match v with
  | .null => none
  | .str s => if s = "" then none else pyFloatOfChars s.data
  | .int n => some ⟨n, 1⟩
  | .float x => some x
  | .bool b => some ⟨if b then 1 else 0, 1⟩

/-- `int(match_id_raw)` as used on index 0 of `_build_entry` (no `None`/`""`
pre-filter; `TypeError`/`ValueError` mean rejection). -/
def coerceIdToInt (v : JSVal) : Option ℤ :=
  match v with
  | .null => none
  | .str s => pyIntOfChars s.data
  | .int n => some n
  | .float x => some x.trunc
  | .bool b => some (if b then 1 else 0)

/-- One step of `re.sub(r"<[^>]+>", "", value)`: at `<`, a non-empty run of
non-`>` characters followed by `>` is removed; otherwise the character is
kept.  Fuel-driven (the fuel is the string length) to stay structural. -/
def stripTagsLoop : ℕ → List Char → List Char
  | 0, cs => cs
  | _ + 1, [] => []
  | fuel + 1, c :: rest =>
    if c = '<' then
      let inner := rest.takeWhile (fun x => x ≠ '>')
      match rest.dropWhile (fun x => x ≠ '>') with
      | '>' :: rest2 =>
        if inner.isEmpty then c :: stripTagsLoop fuel rest
        else stripTagsLoop fuel rest2
      | _ => c :: stripTagsLoop fuel rest
    else c :: stripTagsLoop fuel rest

/-- `value.replace("&nbsp;", " ")`. -/
def replaceNbspLoop : ℕ → List Char → List Char
  | 0, cs => cs
  | _ + 1, [] => []
  | fuel + 1, c :: rest =>
    if c = '&' && rest.take 5 = ['n', 'b', 's', 'p', ';'] then
      ' ' :: replaceNbspLoop fuel (rest.drop 5)
    else c :: replaceNbspLoop fuel rest

/-- `_clean_team_name`: non-strings become `"-"`; otherwise markup tags are
stripped, `&nbsp;` entities become spaces, the result is trimmed, and an
empty result becomes `"-"`. -/
def clean_team_name (v : JSVal) : String :=
  match v with
  | .str s =>
    let noTags := stripTagsLoop s.data.length s.data
    let t := trimChars (replaceNbspLoop noTags.length noTags)
    if t.isEmpty then "-" else ⟨t⟩
  | _ => "-"

/-- The canonical match entity built by `_build_entry`. -/
structure Entry where
  id : String
  match_time : DateTime
  status : ℤ
  home_team : String
  away_team : String
  home_score : Option ℤ
  away_score : Option ℤ
  handicap : Option Flt
  goal_line : Option Flt
deriving DecidableEq, Repr

/-- `_build_entry` from `modules/nowgoal_client.py`: positional mapping of a
token sequence into an `Entry`.  `values.getD i .null` is Python's
`values[i] if len(values) > i else None`. -/
def build_entry (values : List JSVal) : Option Entry :=
  if values.length < 9 then none
  else
    match coerceIdToInt (values.getD 0 .null) with
    | none => none
    | some mid =>
      match values.getD 8 .null with
      | .str ks =>
        match strptimeYmdHMS ⟨trimChars ks.data⟩ with
        | none => none
        | some mt =>
          some { id := ⟨intDigits mid⟩
                 match_time := mt
                 status := (coerce_int (values.getD 19 .null)).getD 0
                 home_team := clean_team_name (values.getD 4 .null)
                 away_team := clean_team_name (values.getD 6 .null)
                 home_score := coerce_int (values.getD 12 .null)
                 away_score := coerce_int (values.getD 13 .null)
                 handicap := coerce_float (values.getD 28 .null)
                 goal_line := coerce_float (values.getD 34 .null) }
      | _ => none

/-! ### Row extractor and dataset cache -/

/-- First index at which `pat` occurs in the list (Python `str.index`). -/
def indexOfSub (pat : List Char) : List Char → Option ℕ
  | [] => if pat.isEmpty then some 0 else none
  | c :: rest =>
    if pat.isPrefixOf (c :: rest) then some 0
    else (indexOfSub pat rest).map (· + 1)

/-- Last index of a character (Python `str.rindex`). -/
def lastIndexOfChar (ch : Char) (cs : List Char) : Option ℕ :=
  match cs.reverse.findIdx? (fun c => c = ch) with
  | none => none
  | some i => some (cs.length - 1 - i)

/-- `_parse_bf_dataset`: scan the feed text line by line; a candidate line
starts with `A[` and contains `]=[`; the payload between `]=[` and the last
`]` goes through the tokenizer and the record builder; rejected rows are
skipped silently. -/
def parse_bf_dataset (text : String) : List Entry :=
  (splitOnChar '\n' text.data).filterMap fun rawLine =>
    let line := trimChars rawLine
    if !(['A', '['].isPrefixOf line) then none
    else
      match indexOfSub [']', '=', '['] line with
      | none => none
      | some i =>
        match lastIndexOfChar ']' line with
        | none => none
        | some e =>
          let payload := (line.drop (i + 3)).take (e - (i + 3))
          build_entry (parse_js_array ⟨payload⟩)

/-- The module-level `_BF_CACHE` dictionary: last build time (seconds, the
`total_seconds` comparison is modelled at whole-second granularity) and last
entity list. -/
structure CacheState where
  timestamp : Option ℤ
  entries : Option (List Entry)
deriving DecidableEq, Repr

/-- The refresh path of `_fetch_bf_dataset`: `download` is the result of
`_download_bf_js()` (`none` models any transport failure, which
`_download_bf_js` swallows and logs).  `cached_entries or []` returns the
previous snapshot if any, else the empty list. -/
def refreshBf (st : CacheState) (now : ℤ) (download : Option String) :
    List Entry × CacheState × Bool :=
  match download with
  | none => (st.entries.getD [], st, true)
  | some raw =>
    let entries := parse_bf_dataset raw
    (entries, ⟨some now, some entries⟩, true)

/-- `_fetch_bf_dataset`, as a state transformer.  The returned `Bool`
records whether the upstream download was attempted (`False` = served from
the fresh cache with no network access). -/
def fetch_bf_dataset (st : CacheState) (now : ℤ) (download : Option String) :
    List Entry × CacheState × Bool :=
  match st.entries, st.timestamp with
  | some es, some ts =>
    if now - ts < 60 then (es, st, false) else refreshBf st now download
  | _, _ => refreshBf st now download

/-! ### Display formatting and the feed queries -/

/-- Zeller's congruence; result `0` = Saturday, `1` = Sunday, ... -/
def zellerWeekday (y mo d : ℕ) : ℕ :=
  let yy := if mo < 3 then y - 1 else y
  let mm := if mo < 3 then mo + 12 else mo
  let K := yy % 100
  let J := yy / 100
  (d + 13 * (mm + 1) / 5 + K + K / 4 + J / 4 + 5 * J) % 7

/-- Day of the last Sunday of a 31-day month. -/
def lastSunday (y mo : ℕ) : ℕ := 31 - (zellerWeekday y mo 31 + 6) % 7

/-- UTC offset (hours) of Europe/Madrid at a UTC instant: CEST between the
last Sundays of March and October (01:00 UTC), CET otherwise. -/
def madridOffsetHours (t : DateTime) : ℕ :=
  let dstStart : DateTime := ⟨t.y, 3, lastSunday t.y 3, 1, 0, 0⟩
  let dstEnd : DateTime := ⟨t.y, 10, lastSunday t.y 10, 1, 0, 0⟩
  if dtLe dstStart t && dtLt t dstEnd then 2 else 1

/-- Add a small number of hours to a civil datetime, rolling over
day/month/year as needed. -/
def addHours (t : DateTime) (k : ℕ) : DateTime :=
  let h := t.h + k
  if h < 24 then ⟨t.y, t.mo, t.d, h, t.mi, t.s⟩
  else
    let h := h - 24
    let d := t.d + 1
    if d ≤ daysInMonth t.y t.mo then ⟨t.y, t.mo, d, h, t.mi, t.s⟩
    else if t.mo = 12 then ⟨t.y + 1, 1, 1, h, t.mi, t.s⟩
    else ⟨t.y, t.mo + 1, 1, h, t.mi, t.s⟩

/-- Two-digit zero-padded rendering. -/
def pad2 (n : ℕ) : List Char := if n < 10 then '0' :: natDigits n else natDigits n

/-- `_format_match_time`: the naive kickoff is treated as UTC, converted to
Europe/Madrid, and rendered as `"%d/%m %H:%M"`. -/
def format_match_time (t : DateTime) : String :=
  let lt := addHours t (madridOffsetHours t)
  ⟨pad2 lt.d ++ '/' :: pad2 lt.mo ++ ' ' :: pad2 lt.h ++ ':' :: pad2 lt.mi⟩

/-- `10^e` as a fraction, for integer `e`. -/
def powTen (e : ℤ) : Flt := if 0 ≤ e then ⟨10 ^ e.toNat, 1⟩ else ⟨1, 10 ^ (-e).toNat⟩

/-- Decimal exponent of a positive fraction: the largest `e` with
`10^e ≤ m`. -/
def decExpFlt (m : Flt) : ℤ :=
  let a : ℤ := (natDigits m.num.natAbs).length
  let b : ℤ := (natDigits m.den).length
  if m.blt (powTen (a - b)) then a - b - 1 else a - b

/-- Python `f"{value:g}"` on a float: six significant digits, trailing
zeros stripped, scientific notation when the decimal exponent is below `-4`
or at least `6` (negative zero, which would render `"-0"`, is not
representable in `Flt` and is not needed by any claim). -/
def pyFormatG (x : Flt) : String :=
  if x.beq Flt.zero then "0"
  else
    let negc : List Char := if x.blt Flt.zero then ['-'] else []
    let m := x.abs
    let e0 := decExpFlt m
    let ml0 := (m.mul (powTen (5 - e0))).pyRound
    let ml : ℤ := if 10 ^ 6 ≤ ml0 then 10 ^ 5 else ml0
    let e : ℤ := if 10 ^ 6 ≤ ml0 then e0 + 1 else e0
    let ds := ((natDigits ml.toNat).reverse.dropWhile (fun c => c = '0')).reverse
    let body :=
      if -4 ≤ e ∧ e < 6 then
        if 0 ≤ e then
          let il := e.toNat + 1
          let dsp := ds ++ List.replicate (il - ds.length) '0'
          dsp.take il ++ (if (dsp.drop il).isEmpty then [] else '.' :: dsp.drop il)
        else '0' :: '.' :: (List.replicate (-(e + 1)).toNat '0' ++ ds)
      else
        (match ds with
         | [] => ['0']
         | d :: rest => d :: (if rest.isEmpty then [] else '.' :: rest)) ++
          'e' :: (if e < 0 then '-' else '+') :: pad2 e.natAbs
    ⟨negc ++ body⟩

/-- `_format_line` on the nullable float fields of an `Entry`: `None`
renders as `"-"`, a float as `f"{value:g}"`.  (The string branch of
`_format_line` is never reached from an `Entry`.) -/
def format_line (v : Option Flt) : String :=
  match v with
  | none => "-"
  | some x => pyFormatG x

/-- The display record produced by `_serialize_match`. -/
structure Display where
  id : String
  time : String
  home_team : String
  away_team : String
  handicap : String
  goal_line : String
  score : Option String
deriving DecidableEq, Repr

/-- `_serialize_match`: when `include_score` is set, the `score` key is
added only if both scores are present, formatted `f"{home}-{away}"`. -/
def serialize_match (e : Entry) (includeScore : Bool) : Display :=
  { id := e.id
    time := format_match_time e.match_time
    home_team := e.home_team
    away_team := e.away_team
    handicap := format_line e.handicap
    goal_line := format_line e.goal_line
    score :=
      if includeScore then
        match e.home_score, e.away_score with
        | some h, some a => some ⟨intDigits h ++ '-' :: intDigits a⟩
        | _, _ => none
      else none }

/-- `_ensure_positive_int`: non-positive input falls back to the default,
valid input is capped at the maximum. -/
def ensure_positive_int (value : ℤ) (default maximum : ℕ) : ℕ :=
  if value ≤ 0 then default else min value.toNat maximum

/-- The candidate stage of `fetch_upcoming_matches`: status `0` or kickoff
not in the past, sorted ascending by kickoff (stable, like `list.sort`). -/
def upcomingCandidates (dataset : List Entry) (now : DateTime) : List Entry :=
  (dataset.filter (fun e => e.status = 0 || dtLe now e.match_time)).mergeSort
    (fun a b => dtLe a.match_time b.match_time)

/-- The candidate stage of `fetch_finished_matches`: status in `{1,2,3,4}`,
both scores present, kickoff not in the future; sorted descending by
kickoff (stable). -/
def finishedCandidates (dataset : List Entry) (now : DateTime) : List Entry :=
  (dataset.filter (fun e =>
      (decide (e.status = 1 ∨ e.status = 2 ∨ e.status = 3 ∨ e.status = 4)) &&
      e.home_score.isSome && e.away_score.isSome && dtLe e.match_time now)).mergeSort
    (fun a b => dtLe b.match_time a.match_time)

/-- The `if handicap_filter:` block shared by both queries: an empty or
absent filter string is falsy and disables filtering; a filter that fails
to normalize leaves the candidates untouched; otherwise only candidates
whose own normalized handicap equals the target are retained. -/
def applyHandicapFilter (hf : Option String) (cands : List Entry) : List Entry :=
  match hf with
  | none => cands
  | some f =>
    if f = "" then cands
    else
      match NG.normalize_handicap_to_half_bucket_str (some f) with
      | none => cands
      | some target =>
        cands.filter (fun e =>
          NG.normalize_handicap_to_half_bucket_str (some (format_line e.handicap)) =
            some target)

/-- `fetch_upcoming_matches` (dataset and query time passed explicitly). -/
def fetch_upcoming_matches (dataset : List Entry) (now : DateTime)
    (limit offset : ℤ) (hf : Option String) : List Display :=
  let lim := ensure_positive_int limit 20 200
  let off := (max 0 offset).toNat
  let cands := applyHandicapFilter hf (upcomingCandidates dataset now)
  ((cands.drop off).take lim).map (fun e => serialize_match e false)

/-- `fetch_finished_matches` (dataset and query time passed explicitly). -/
def fetch_finished_matches (dataset : List Entry) (now : DateTime)
    (limit offset : ℤ) (hf : Option String) : List Display :=
  let lim := ensure_positive_int limit 20 200
  let off := (max 0 offset).toNat
  let cands := applyHandicapFilter hf (finishedCandidates dataset now)
  ((cands.drop off).take lim).map (fun e => serialize_match e true)

/-- `collect_handicap_options`: deduplicated normalized buckets of the
sampled matches (the `handicap` field of each, possibly absent), sorted by
`float(option)`.  A `float()` failure would raise inside `sorted`; that
outcome is modelled as `none`. -/
def collect_handicap_options (hs : List (Option String)) : Option (List String) :=
  let vals := (hs.filterMap NG.normalize_handicap_to_half_bucket_str).dedup
  if vals.all (fun s => (pyFloatOfChars s.data).isSome) then
    some (vals.mergeSort (fun a b =>
      Flt.ble ((pyFloatOfChars a.data).getD Flt.zero) ((pyFloatOfChars b.data).getD Flt.zero)))
  else none

/-! ### `v2/v2/app.py` — finished-view markup parser

The BeautifulSoup document is modelled at the row level: each `<tr>` whose
id starts with `tr1_` is a `TRow` carrying exactly the attributes and
sub-elements the parser queries. -/

/-- Python `str.replace(pat, rep)` on character lists: non-overlapping,
left-to-right.  Fuel-driven (the fuel is the string length). -/
def replaceSubLoop (pat rep : List Char) : ℕ → List Char → List Char
  | 0, cs => cs
  | _ + 1, [] => []
  | fuel + 1, c :: rest =>
    if pat.isPrefixOf (c :: rest) then
      rep ++ replaceSubLoop pat rep fuel ((c :: rest).drop pat.length)
    else c :: replaceSubLoop pat rep fuel rest

/-- Python `str.replace` (for a non-empty pattern). -/
def replaceSub (pat rep cs : List Char) : List Char :=
  if pat.isEmpty then cs else replaceSubLoop pat rep cs.length cs

/-- A `<td>` cell: the stripped text of an emphasized `<b>` child if one
exists, and the cell's own stripped text. -/
structure SCell where
  bText : Option String
  text : String
deriving DecidableEq, Repr

/-- A feed table row as queried by the parser. -/
structure TRow where
  /-- The `id` attribute (`find_all` pre-filters ids starting `tr1_`). -/
  rid : String
  /-- The `state` attribute, if present. -/
  state : Option String
  /-- The `odds` attribute, if present (`row.get('odds', '')`). -/
  odds : Option String
  /-- All `<td>` children in order. -/
  cells : List SCell
  /-- The `<td name="timeData">` cell, if present, with its `data-t`
  attribute, if present. -/
  timeData : Option (Option String)
  /-- Stripped text of the `<a id="team1_{id}">` anchor, if present. -/
  team1 : Option String
  /-- Stripped text of the `<a id="team2_{id}">` anchor, if present. -/
  team2 : Option String
deriving DecidableEq, Repr

/-- The per-row record accumulated by `parse_main_page_finished_matches`
before filtering/sorting/pagination. -/
structure V2Match where
  id : String
  time_obj : DateTime
  home_team : String
  away_team : String
  score : String
  handicap : String
  goal_line : String
deriving DecidableEq, Repr

/-- `^\d+\s*-\s*\d+$` (`re.match` with the trailing anchor). -/
def scoreTextMatches (cs : List Char) : Bool :=
  let d1 := cs.takeWhile Char.isDigit
  let r1 := (cs.dropWhile Char.isDigit).dropWhile Char.isWhitespace
  match r1 with
  | '-' :: r2 =>
    let r3 := r2.dropWhile Char.isWhitespace
    let d2 := r3.takeWhile Char.isDigit
    !d1.isEmpty && !d2.isEmpty && (r3.dropWhile Char.isDigit).isEmpty
  | _ => false

/-- The loop body of `parse_main_page_finished_matches` for one row;
`none` means the row is skipped (`continue`).  `now` is the
`datetime.datetime.now()` default used when the time cell or its `data-t`
attribute is absent. -/
def buildFinishedRow (now : DateTime) (row : TRow) : Option V2Match :=
  let matchId : String := ⟨replaceSub "tr1_".data [] row.rid.data⟩
  if matchId = "" then none
  else
    match row.state with
    | some st =>
      if st ≠ "-1" then none else buildFinishedRowAfterState now row matchId
    | none => buildFinishedRowAfterState now row matchId
where
  /-- Continuation after the `state` check. -/
  buildFinishedRowAfterState (now : DateTime) (row : TRow) (matchId : String) :
      Option V2Match :=
    if row.cells.length < 8 then none
    else
      let scoreCell := row.cells.getD 6 ⟨none, ""⟩
      let scoreText :=
        match scoreCell.bText with
        | some t => ⟨trimChars t.data⟩
        | none => scoreCell.text
      if !scoreTextMatches scoreText.data then none
      else
        let odds := splitOnChar ',' (row.odds.getD "").data
        let handicap : String := if odds.length > 2 then ⟨odds.getD 2 []⟩ else "N/A"
        let goalLine : String := if odds.length > 10 then ⟨odds.getD 10 []⟩ else "N/A"
        if handicap = "N/A" then none
        else
          let timeRes : Option DateTime :=
            match row.timeData with
            | some (some dt) =>
              match strptimeYmdHMS dt with
              | some t => some t
              | none => none
            | _ => some now
          match timeRes with
          | none => none
          | some matchTime =>
            some { id := matchId
                   time_obj := matchTime
                   home_team := (row.team1.map (fun s => (⟨trimChars s.data⟩ : String))).getD "N/A"
                   away_team := (row.team2.map (fun s => (⟨trimChars s.data⟩ : String))).getD "N/A"
                   score := scoreText
                   handicap := handicap
                   goal_line := goalLine }

/-- The final shape returned by `parse_main_page_finished_matches`: the
`time_obj` key is replaced by a display `time` string (kickoff plus a fixed
two hours, `"%d/%m %H:%M"`). -/
structure V2Display where
  id : String
  time : String
  home_team : String
  away_team : String
  score : String
  handicap : String
  goal_line : String
deriving DecidableEq, Repr

/-- `parse_main_page_finished_matches` from `v2/v2/app.py`: per-row
acceptance, optional handicap filtering (v2 normalizer, fail-open on the
filter side), stable descending sort on kickoff, pagination, display
formatting. -/
def parse_main_page_finished_matches (rows : List TRow) (now : DateTime)
    (limit offset : ℕ) (hf : Option String) : List V2Display :=
  let accepted := (rows.filter (fun (r : TRow) => "tr1_".data.isPrefixOf r.rid.data)).filterMap
    (buildFinishedRow now)
  let filtered :=
    match hf with
    | none => accepted
    | some f =>
      if f = "" then accepted
      else
        match V2.normalize_handicap_to_half_bucket_str (some f) with
        | none => accepted
        | some target =>
          accepted.filter (fun m =>
            V2.normalize_handicap_to_half_bucket_str (some m.handicap) = some target)
  let sorted := filtered.mergeSort (fun a b => dtLe b.time_obj a.time_obj)
  ((sorted.drop offset).take limit).map fun m =>
    let lt := addHours m.time_obj 2
    { id := m.id
      time := ⟨pad2 lt.d ++ '/' :: pad2 lt.mo ++ ' ' :: pad2 lt.h ++ ':' :: pad2 lt.mi⟩
      home_team := m.home_team
      away_team := m.away_team
      score := m.score
      handicap := m.handicap
      goal_line := m.goal_line }

/-! ## Claims -/

/-- C1: the handicap normalizer satisfies the spec's example table:
`"0" ↦ "0.0"`, `"0.25" ↦ "0.5"`, `"0.75" ↦ "0.5"`, `"-0.5" ↦ "-0.5"`,
`"0/0.5" ↦ "0.5"` (split lines are averaged, then bucketed), and
`"abc" ↦ null`. -/
theorem c1_normalize_example_table :
    NG.normalize_handicap_to_half_bucket_str (some "0") = some "0.0" ∧
    NG.normalize_handicap_to_half_bucket_str (some "0.25") = some "0.5" ∧
    NG.normalize_handicap_to_half_bucket_str (some "0.75") = some "0.5" ∧
    NG.normalize_handicap_to_half_bucket_str (some "-0.5") = some "-0.5" ∧
    NG.normalize_handicap_to_half_bucket_str (some "0/0.5") = some "0.5" ∧
    NG.normalize_handicap_to_half_bucket_str (some "abc") = none := by
  refine ⟨?_, ?_, ?_, ?_, ?_, ?_⟩ <;> decide

/-- C2 counterexample: tokenizing `1,'Team, A',undefined,True` does NOT
yield the claimed four-token sequence — the comma that follows the closing
quote flushes an (empty) residual bare token, which classifies as null. -/
theorem c2_tokenizer_four_tokens_false :
    parse_js_array "1,'Team, A',undefined,True" ≠
      [JSVal.int 1, JSVal.str "Team, A", JSVal.null, JSVal.bool true] := by
  decide

/-- C2 (amended): tokenizing `1,'Team, A',undefined,True` yields exactly
the five-token sequence `[1, "Team, A", null, null, true]` — the embedded
comma is preserved inside the quoted token, and the comma after the closing
quote contributes one extra null token. -/
theorem c2_tokenizer_five_tokens :
    parse_js_array "1,'Team, A',undefined,True" =
      [JSVal.int 1, JSVal.str "Team, A", JSVal.null, JSVal.null, JSVal.bool true] := by
  decide

/-- C3: the dataset cache serves a fresh snapshot unchanged with no
download; an expired (or absent) snapshot triggers a refresh that, on
success, replaces snapshot and timestamp and returns the fresh list, and on
failure returns the previous snapshot or an empty list; and after a
successful refresh, any two queries within 60 seconds are both served from
the cache with no further download. -/
theorem c3_cache_ttl_and_degradation :
    (∀ (st : CacheState) (now : ℤ) (dl : Option String) (es : List Entry) (ts : ℤ),
      st.entries = some es → st.timestamp = some ts → now - ts < 60 →
      fetch_bf_dataset st now dl = (es, st, false)) ∧
    (∀ (st : CacheState) (now : ℤ) (raw : String),
      (∀ (es : List Entry) (ts : ℤ), st.entries = some es → st.timestamp = some ts →
        60 ≤ now - ts) →
      fetch_bf_dataset st now (some raw) =
        (parse_bf_dataset raw, ⟨some now, some (parse_bf_dataset raw)⟩, true)) ∧
    (∀ (st : CacheState) (now : ℤ),
      (∀ (es : List Entry) (ts : ℤ), st.entries = some es → st.timestamp = some ts →
        60 ≤ now - ts) →
      fetch_bf_dataset st now none = (st.entries.getD [], st, true)) ∧
    (∀ (es : List Entry) (t0 t1 t2 : ℤ) (dl1 dl2 : Option String),
      t1 - t0 < 60 → t2 - t0 < 60 →
      fetch_bf_dataset ⟨some t0, some es⟩ t1 dl1 = (es, ⟨some t0, some es⟩, false) ∧
      fetch_bf_dataset ⟨some t0, some es⟩ t2 dl2 = (es, ⟨some t0, some es⟩, false)) := by
  refine ⟨?_, ?_, ?_, ?_⟩
  · intro st now dl es ts hes hts hage
    obtain ⟨sts, sents⟩ := st
    simp only at hes hts
    subst hes hts
    simp [fetch_bf_dataset, hage]
  · intro st now raw hstale
    obtain ⟨sts, sents⟩ := st
    match sents, sts with
    | none, none => rfl
    | none, some ts => rfl
    | some es, none => rfl
    | some es, some ts =>
      have h60 : 60 ≤ now - ts := hstale es ts rfl rfl
      simp [fetch_bf_dataset, show ¬(now - ts < 60) by omega, refreshBf]
  · intro st now hstale
    obtain ⟨sts, sents⟩ := st
    match sents, sts with
    | none, none => rfl
    | none, some ts => rfl
    | some es, none => rfl
    | some es, some ts =>
      have h60 : 60 ≤ now - ts := hstale es ts rfl rfl
      simp [fetch_bf_dataset, show ¬(now - ts < 60) by omega, refreshBf]
  · intro es t0 t1 t2 dl1 dl2 h1 h2
    constructor
    · simp [fetch_bf_dataset, h1]
    · simp [fetch_bf_dataset, h2]

/-- C3 witness: the theorem instantiated at concrete states and clocks. -/
theorem c3_cache_ttl_and_degradation_witness :
    fetch_bf_dataset ⟨some 100, some []⟩ 130 none = ([], ⟨some 100, some []⟩, false) ∧
    fetch_bf_dataset ⟨none, none⟩ 130 none = ([], ⟨none, none⟩, true) := by
  constructor
  · exact c3_cache_ttl_and_degradation.1 ⟨some 100, some []⟩ 130 none [] 100 rfl rfl
      (by omega)
  · exact c3_cache_ttl_and_degradation.2.2.1 ⟨none, none⟩ 130
      (by intro es ts hes hts; cases hes)

/-- C4: the record builder rejects token sequences shorter than 9 and
sequences whose index-0 value does not coerce to an integer; on accepted
sequences, every field index beyond the sequence length (status 19, scores
12/13, handicap 28, goal line 34) yields the absent/default value rather
than an error. -/
theorem c4_build_entry_bounds :
    (∀ vs : List JSVal, vs.length < 9 → build_entry vs = none) ∧
    (∀ vs : List JSVal, coerceIdToInt (vs.getD 0 JSVal.null) = none →
      build_entry vs = none) ∧
    (∀ (vs : List JSVal) (e : Entry), build_entry vs = some e →
      (vs.length ≤ 19 → e.status = 0) ∧
      (vs.length ≤ 12 → e.home_score = none) ∧
      (vs.length ≤ 13 → e.away_score = none) ∧
      (vs.length ≤ 28 → e.handicap = none) ∧
      (vs.length ≤ 34 → e.goal_line = none)) := by
  refine ⟨?_, ?_, ?_⟩
  · intro vs h
    simp [build_entry, h]
  · intro vs h
    by_cases hlen : vs.length < 9
    · simp [build_entry, hlen]
    · simp only [List.getD_eq_getElem?_getD] at h
      simp [build_entry, hlen, h]
  · intro vs e h
    by_cases hlen : vs.length < 9
    · simp [build_entry, hlen] at h
    · simp only [build_entry, hlen, if_false] at h
      split at h
      · exact absurd h (by simp)
      · split at h
        · split at h
          · exact absurd h (by simp)
          · simp only [Option.some.injEq] at h
            subst h
            refine ⟨?_, ?_, ?_, ?_, ?_⟩
            · intro hl
              simp [List.getElem?_eq_none (by omega : vs.length ≤ 19), coerce_int]
            · intro hl
              simp [List.getElem?_eq_none (by omega : vs.length ≤ 12), coerce_int]
            · intro hl
              simp [List.getElem?_eq_none (by omega : vs.length ≤ 13), coerce_int]
            · intro hl
              simp [List.getElem?_eq_none (by omega : vs.length ≤ 28), coerce_float]
            · intro hl
              simp [List.getElem?_eq_none (by omega : vs.length ≤ 34), coerce_float]
        · exact absurd h (by simp)

/-- C4 witness: a 7-token row is rejected; a row with a non-integer id is
rejected; a well-formed 9-token row is accepted with every beyond-length
field absent (status defaulted to 0). -/
theorem c4_build_entry_bounds_witness :
    build_entry [JSVal.int 1, .null, .null, .null, .null, .null, .null] = none ∧
    build_entry [JSVal.str "x7", .null, .null, .null, .str "H", .null, .str "A",
      .null, .str "2024-01-02 03:04:05"] = none ∧
    (build_entry [JSVal.int 7, .null, .null, .null, .str "H", .null, .str "A",
        .null, .str "2024-01-02 03:04:05"]).elim True (fun e => e.status = 0) := by
  refine ⟨?_, ?_, ?_⟩
  · exact c4_build_entry_bounds.1 _ (by decide)
  · exact c4_build_entry_bounds.2.1 _ (by decide)
  · have h : build_entry [JSVal.int 7, .null, .null, .null, .str "H", .null, .str "A",
        .null, .str "2024-01-02 03:04:05"] =
        some { id := "7", match_time := ⟨2024, 1, 2, 3, 4, 5⟩, status := 0,
               home_team := "H", away_team := "A", home_score := none,
               away_score := none, handicap := none, goal_line := none } := by decide
    rw [h]
    exact (c4_build_entry_bounds.2.2 _ _ h).1 (by decide)

/-! ### C9 helpers: the `-` to `−` substitution commutes with the v2 cleaner -/

theorem list_isEmpty_map {α β : Type} (f : α → β) (l : List α) :
    (l.map f).isEmpty = l.isEmpty := by
  cases l <;> rfl

theorem trimChars_map (f : Char → Char)
    (hws : ∀ c, (f c).isWhitespace = c.isWhitespace) (cs : List Char) :
    trimChars (cs.map f) = (trimChars cs).map f := by
  have hfun : (Char.isWhitespace ∘ f) = Char.isWhitespace := funext hws
  simp only [trimChars, List.dropWhile_map, hfun, ← List.map_reverse]

theorem splitOnChar_map (sep : Char) (f : Char → Char)
    (hsep : ∀ c, f c = sep ↔ c = sep) (cs : List Char) :
    splitOnChar sep (cs.map f) = (splitOnChar sep cs).map (List.map f) := by
  induction cs with
  | nil => rfl
  | cons c rest ih =>
    simp only [List.map_cons, splitOnChar, ih]
    cases hs : splitOnChar sep rest with
    | nil => simp
    | cons r rs =>
      by_cases hc : c = sep
      · subst hc
        simp [(hsep c).mpr rfl]
      · have hfc : ¬(f c = sep) := fun h => hc ((hsep c).mp h)
        simp [hc, hfc]

theorem contains_map (x : Char) (f : Char → Char)
    (hx : ∀ c, f c = x ↔ c = x) (cs : List Char) :
    (cs.map f).contains x = cs.contains x := by
  induction cs with
  | nil => rfl
  | cons c rest ih =>
    simp only [List.map_cons, List.contains_cons, ih]
    by_cases hc : c = x
    · subst hc
      rw [(hx c).mpr rfl]
    · have hfc : ¬(f c = x) := fun h => hc ((hx c).mp h)
      have h1 : (x == f c) = false := beq_eq_false_iff_ne.mpr (fun h => hfc h.symm)
      have h2 : (x == c) = false := beq_eq_false_iff_ne.mpr (fun h => hc h.symm)
      rw [h1, h2]

theorem mapMOpt_map_eq {α β : Type} (f : α → α) (g : α → Option β)
    (h : ∀ p, g (f p) = g p) (parts : List α) :
    mapMOpt g (parts.map f) = mapMOpt g parts := by
  induction parts with
  | nil => rfl
  | cons p ps ih => simp only [List.map_cons, mapMOpt, h p, ih]

/-- Pointwise: the v2 minus-unifier absorbs a previous ASCII-to-Unicode
substitution. -/
theorem dashSwap_absorbed (c : Char) :
    (if (if c = '-' then '−' else c) = '−' then '-' else if c = '-' then '−' else c) =
      (if c = '−' then '-' else c) := by
  by_cases h1 : c = '-'
  · simp [h1]
  · by_cases h2 : c = '−' <;> simp [h1, h2]

/-- The v2 cleaner is insensitive to replacing the ASCII minus by the
Unicode minus. -/
theorem v2_cleanNumText_dash (cs : List Char) :
    V2.cleanNumText (replaceChar '-' '−' cs) = V2.cleanNumText cs := by
  unfold V2.cleanNumText replaceChar
  rw [trimChars_map _ (fun c => by by_cases h : c = '-' <;> simp [h]) cs]
  rw [List.map_map]
  congr 1
  refine List.map_congr_left (fun c _ => ?_)
  show (if (if c = '-' then '−' else c) = '−' then '-' else if c = '-' then '−' else c) =
    (if c = '−' then '-' else c)
  exact dashSwap_absorbed c

/-- C9 counterexample: in `modules/nowgoal_client.py` the normalizer does
NOT unify the Unicode minus — `normalize("−0.5")` is null there, not
`"-0.5"` as the claim asserts. -/
theorem c9_unicode_minus_false_for_modules :
    NG.normalize_handicap_to_half_bucket_str (some "−0.5") = none := by decide

/-- C9 (amended): only the `v2/v2/app.py` variant unifies minus-sign
glyphs: there, replacing every ASCII `-` by the Unicode minus `−` leaves
the normalization result unchanged for every text, and `"−0.5"` normalizes
to `"-0.5"`; the `modules/nowgoal_client.py` variant performs no such
unification and maps `"−0.5"` to null. -/
theorem c9_unicode_minus_v2_only :
    (∀ s : String,
      V2.normalize_handicap_to_half_bucket_str (some ⟨replaceChar '-' '−' s.data⟩) =
        V2.normalize_handicap_to_half_bucket_str (some s)) ∧
    V2.normalize_handicap_to_half_bucket_str (some "−0.5") = some "-0.5" ∧
    NG.normalize_handicap_to_half_bucket_str (some "−0.5") = none := by
  refine ⟨?_, by decide, by decide⟩
  intro s
  have hdash : ∀ c : Char, (if c = '-' then '−' else c).isWhitespace = c.isWhitespace :=
    fun c => by by_cases h : c = '-' <;> simp [h]
  have hslashpt : ∀ c : Char, (if c = '-' then '−' else c) = '/' ↔ c = '/' :=
    fun c => by by_cases h : c = '-' <;> simp [h]
  have hparse : V2.parse_handicap_to_float (some ⟨replaceChar '-' '−' s.data⟩) =
      V2.parse_handicap_to_float (some s) := by
    unfold V2.parse_handicap_to_float
    simp only
    rw [show trimChars (replaceChar '-' '−' s.data) =
        (trimChars s.data).map (fun c => if c = '-' then '−' else c) from
      trimChars_map _ hdash s.data]
    rw [contains_map '/' _ hslashpt (trimChars s.data)]
    by_cases hslash : (trimChars s.data).contains '/'
    · simp only [hslash, if_true]
      rw [splitOnChar_map '/' _ hslashpt]
      rw [List.filter_map]
      rw [show ((fun p : List Char => decide (¬p.isEmpty = true)) ∘
          List.map (fun c => if c = '-' then '−' else c)) =
          (fun p : List Char => decide (¬p.isEmpty = true)) from
        funext (fun p => by simp only [Function.comp, list_isEmpty_map])]
      rw [mapMOpt_map_eq _ _ (fun p => by
        show NG.matchNumSigned (V2.cleanNumText (replaceChar '-' '−' p)) =
          NG.matchNumSigned (V2.cleanNumText p)
        rw [v2_cleanNumText_dash])]
    · simp only [hslash, Bool.false_eq_true, if_false]
      rw [List.filter_map]
      rw [show ((fun c : Char => decide (c ≠ '+')) ∘ (fun c => if c = '-' then '−' else c)) =
          (fun c : Char => decide (c ≠ '+')) from
        funext (fun c => by
          by_cases h : c = '-'
          · subst h
            rfl
          · simp [Function.comp, h])]
      rw [show NG.matchNumSigned (V2.cleanNumText
            ((List.filter (fun c => decide (c ≠ '+')) (trimChars s.data)).map
              (fun c => if c = '-' then '−' else c))) =
          NG.matchNumSigned (V2.cleanNumText
            (List.filter (fun c => decide (c ≠ '+')) (trimChars s.data))) from by
        rw [show (List.filter (fun c => decide (c ≠ '+')) (trimChars s.data)).map
              (fun c => if c = '-' then '−' else c) =
            replaceChar '-' '−' (List.filter (fun c => decide (c ≠ '+')) (trimChars s.data))
          from rfl]
        rw [v2_cleanNumText_dash]]
  unfold V2.normalize_handicap_to_half_bucket_str
  rw [hparse]

/-! ### C5/C6 helpers: the kickoff order is a total preorder -/

theorem dtLt_iff (a b : DateTime) : dtLt a b = true ↔
    (a.y < b.y ∨ (a.y = b.y ∧ (a.mo < b.mo ∨ (a.mo = b.mo ∧
      (a.d < b.d ∨ (a.d = b.d ∧ (a.h < b.h ∨ (a.h = b.h ∧
        (a.mi < b.mi ∨ (a.mi = b.mi ∧ a.s < b.s)))))))))) := by
  unfold dtLt
  split_ifs <;> simp_all <;> omega

theorem dtLe_iff (a b : DateTime) : dtLe a b = true ↔ (dtLt a b = true ∨ a = b) := by
  unfold dtLe
  simp [Bool.or_eq_true, decide_eq_true_eq]

theorem dtLe_trans (a b c : DateTime) (h1 : dtLe a b = true) (h2 : dtLe b c = true) :
    dtLe a c = true := by
  obtain ⟨ay, amo, ad, ah, ami, as⟩ := a
  obtain ⟨by', bmo, bd, bh, bmi, bs⟩ := b
  obtain ⟨cy, cmo, cd, ch, cmi, cs⟩ := c
  rw [dtLe_iff, dtLt_iff] at h1 h2 ⊢
  simp only [DateTime.mk.injEq] at h1 h2 ⊢
  omega

theorem dtLe_total (a b : DateTime) : (dtLe a b || dtLe b a) = true := by
  obtain ⟨ay, amo, ad, ah, ami, as⟩ := a
  obtain ⟨by', bmo, bd, bh, bmi, bs⟩ := b
  rw [Bool.or_eq_true, dtLe_iff, dtLe_iff, dtLt_iff, dtLt_iff]
  simp only [DateTime.mk.injEq]
  omega

/-- The handicap-filter stage only ever removes candidates. -/
theorem applyHandicapFilter_subset (hf : Option String) (cands : List Entry) (e : Entry)
    (h : e ∈ applyHandicapFilter hf cands) : e ∈ cands := by
  unfold applyHandicapFilter at h
  match hf with
  | none => exact h
  | some f =>
    simp only at h
    by_cases hf0 : f = ""
    · simpa [hf0] using h
    · simp only [hf0, if_false] at h
      cases hnorm : NG.normalize_handicap_to_half_bucket_str (some f) with
      | none => rw [hnorm] at h; exact h
      | some target => rw [hnorm] at h; exact (List.mem_filter.mp h).1

/-- C5: every display entry returned by the finished query arises from a
dataset entity with status in `{1,2,3,4}`, both scores present, and kickoff
not after `now`; its `score` field is `"<home>-<away>"` (never missing);
and the candidate list is sorted descending by kickoff before slicing. -/
theorem c5_finished_query_shape :
    ∀ (dataset : List Entry) (now : DateTime) (limit offset : ℤ) (hf : Option String),
      (∀ d ∈ fetch_finished_matches dataset now limit offset hf,
        ∃ e ∈ dataset,
          (e.status = 1 ∨ e.status = 2 ∨ e.status = 3 ∨ e.status = 4) ∧
          e.home_score.isSome ∧ e.away_score.isSome ∧ dtLe e.match_time now = true ∧
          d = serialize_match e true ∧
          ∃ h a, e.home_score = some h ∧ e.away_score = some a ∧
            d.score = some ⟨intDigits h ++ '-' :: intDigits a⟩) ∧
      List.Pairwise (fun x y => dtLe y.match_time x.match_time = true)
        (finishedCandidates dataset now) := by
  intro dataset now limit offset hf
  constructor
  · intro d hd
    unfold fetch_finished_matches at hd
    simp only [List.mem_map] at hd
    obtain ⟨e, he, hser⟩ := hd
    have he1 : e ∈ applyHandicapFilter hf (finishedCandidates dataset now) :=
      List.mem_of_mem_drop (List.mem_of_mem_take he)
    have he2 : e ∈ finishedCandidates dataset now :=
      applyHandicapFilter_subset _ _ _ he1
    unfold finishedCandidates at he2
    rw [List.mem_mergeSort] at he2
    rw [List.mem_filter] at he2
    obtain ⟨hmem, hcond⟩ := he2
    simp only [Bool.and_eq_true, decide_eq_true_eq] at hcond
    obtain ⟨⟨⟨hstat, hhs⟩, has⟩, htime⟩ := hcond
    obtain ⟨h, hh⟩ := Option.isSome_iff_exists.mp hhs
    obtain ⟨a, ha⟩ := Option.isSome_iff_exists.mp has
    refine ⟨e, hmem, hstat, hhs, has, htime, hser.symm, h, a, hh, ha, ?_⟩
    rw [← hser]
    simp [serialize_match, hh, ha]
  · unfold finishedCandidates
    refine List.sorted_mergeSort ?_ ?_ _
    · exact fun a b c hab hbc => dtLe_trans _ _ _ hbc hab
    · exact fun a b => dtLe_total _ _

/-- Sample finished entity used by the C5 witness. -/
def c5SampleEntry : Entry :=
  { id := "1", match_time := ⟨2024, 1, 2, 3, 4, 5⟩, status := 1,
    home_team := "H", away_team := "A", home_score := some 2,
    away_score := some 1, handicap := none, goal_line := none }

/-- Sample query time used by the C5 witness. -/
def c5SampleNow : DateTime := ⟨2024, 6, 1, 0, 0, 0⟩

/-- C5 witness: in a concrete one-entity dataset the finished query returns
the serialized entity, and the theorem recovers it with score `"2-1"`. -/
theorem c5_finished_query_shape_witness :
    ∃ e ∈ [c5SampleEntry],
      (e.status = 1 ∨ e.status = 2 ∨ e.status = 3 ∨ e.status = 4) ∧
      e.home_score.isSome ∧ e.away_score.isSome ∧
      dtLe e.match_time c5SampleNow = true ∧
      serialize_match c5SampleEntry true = serialize_match e true ∧
      ∃ h a, e.home_score = some h ∧ e.away_score = some a ∧
        (serialize_match c5SampleEntry true).score =
          some ⟨intDigits h ++ '-' :: intDigits a⟩ := by
  have hcand : finishedCandidates [c5SampleEntry] c5SampleNow = [c5SampleEntry] := by
    unfold finishedCandidates
    rw [List.filter_cons, if_pos (by decide), List.filter_nil]
    exact List.mergeSort_singleton _
  have hfetch : fetch_finished_matches [c5SampleEntry] c5SampleNow 20 0 none =
      [serialize_match c5SampleEntry true] := by
    unfold fetch_finished_matches applyHandicapFilter
    rw [hcand]
    decide
  exact (c5_finished_query_shape [c5SampleEntry] c5SampleNow 20 0 none).1
    (serialize_match c5SampleEntry true) (by rw [hfetch]; exact List.mem_singleton.mpr rfl)

/-- Sample entity without a handicap, used by the C6 counterexample. -/
def c6SampleEntry : Entry :=
  { id := "9", match_time := ⟨2030, 1, 2, 3, 4, 5⟩, status := 0,
    home_team := "H", away_team := "A", home_score := none,
    away_score := none, handicap := none, goal_line := none }

/-- Sample query time used by the C6 counterexample. -/
def c6SampleNow : DateTime := ⟨2024, 6, 1, 0, 0, 0⟩

/-- C6 counterexample: with the parseable filter `"0.5"`, a candidate whose
own handicap fails to normalize (absent handicap renders `"-"`, which is
null under the normalizer) is EXCLUDED — the claim's `the full candidate
set is returned unfiltered` is false: the unfiltered query returns the
entity, the filtered query returns nothing. -/
theorem c6_candidate_normalization_failure_excludes :
    fetch_upcoming_matches [c6SampleEntry] c6SampleNow 20 0 (some "0.5") = [] ∧
    fetch_upcoming_matches [c6SampleEntry] c6SampleNow 20 0 none =
      [serialize_match c6SampleEntry false] := by
  have hcand : upcomingCandidates [c6SampleEntry] c6SampleNow = [c6SampleEntry] := by
    unfold upcomingCandidates
    rw [List.filter_cons, if_pos (by decide), List.filter_nil]
    exact List.mergeSort_singleton _
  constructor
  · unfold fetch_upcoming_matches applyHandicapFilter
    rw [hcand]
    decide
  · unfold fetch_upcoming_matches applyHandicapFilter
    rw [hcand]
    decide

/-- C6 (amended): when a handicap filter string is supplied and normalizes,
candidates are retained exactly when their own normalized handicap equals
the target bucket; a normalization failure of the FILTER text removes the
filter entirely (both queries behave as if no filter were given); but a
normalization failure on a candidate's own handicap excludes that candidate
while the filter is active. -/
theorem c6_filter_semantics :
    (∀ (dataset : List Entry) (now : DateTime) (limit offset : ℤ) (f : String),
      f ≠ "" → NG.normalize_handicap_to_half_bucket_str (some f) = none →
      fetch_upcoming_matches dataset now limit offset (some f) =
        fetch_upcoming_matches dataset now limit offset none ∧
      fetch_finished_matches dataset now limit offset (some f) =
        fetch_finished_matches dataset now limit offset none) ∧
    (∀ (f : String) (tgt : String) (cands : List Entry),
      f ≠ "" → NG.normalize_handicap_to_half_bucket_str (some f) = some tgt →
      applyHandicapFilter (some f) cands =
        cands.filter (fun e =>
          NG.normalize_handicap_to_half_bucket_str (some (format_line e.handicap)) =
            some tgt)) := by
  constructor
  · intro dataset now limit offset f hf0 hnone
    have hfil : ∀ cands, applyHandicapFilter (some f) cands = cands := by
      intro cands
      unfold applyHandicapFilter
      simp [hf0, hnone]
    constructor
    · unfold fetch_upcoming_matches
      rw [hfil]
      rfl
    · unfold fetch_finished_matches
      rw [hfil]
      rfl
  · intro f tgt cands hf0 hsome
    unfold applyHandicapFilter
    simp [hf0, hsome]

/-- C6 witness: the amended semantics instantiated concretely — the
unparseable filter `"abc"` leaves the query unfiltered, and the parseable
filter `"0.5"` turns into an exact bucket-equality filter. -/
theorem c6_filter_semantics_witness :
    (fetch_upcoming_matches [] ⟨2024, 1, 1, 0, 0, 0⟩ 20 0 (some "abc") =
      fetch_upcoming_matches [] ⟨2024, 1, 1, 0, 0, 0⟩ 20 0 none) ∧
    applyHandicapFilter (some "0.5") [c6SampleEntry] =
      List.filter (fun e =>
        NG.normalize_handicap_to_half_bucket_str (some (format_line e.handicap)) =
          some "0.5") [c6SampleEntry] :=
  ⟨(c6_filter_semantics.1 [] ⟨2024, 1, 1, 0, 0, 0⟩ 20 0 "abc" (by decide) (by decide)).1,
   c6_filter_semantics.2 "0.5" "0.5" [c6SampleEntry] (by decide) (by decide)⟩

/-- Sample row used by the C7 counterexample: no time cell, no state
attribute, well-formed score and odds. -/
def c7SampleRow : TRow :=
  { rid := "tr1_5", state := none, odds := some "a,b,0.5,c,d,e,f,g,h,i,2.5",
    cells := [⟨none, ""⟩, ⟨none, ""⟩, ⟨none, ""⟩, ⟨none, ""⟩, ⟨none, ""⟩,
      ⟨none, ""⟩, ⟨some "2 - 1", "x"⟩, ⟨none, ""⟩],
    timeData := none, team1 := some "H", team2 := some "A" }

/-- C7 counterexample: the finished-view parser ACCEPTS a row whose
designated time cell is absent (the kickoff silently defaults to `now`) and
whose state attribute is absent — contradicting the claim that such rows
are rejected and that the state marker must equal the finished sentinel. -/
theorem c7_absent_time_and_state_accepted :
    (buildFinishedRow ⟨2024, 1, 1, 0, 0, 0⟩ c7SampleRow).isSome = true ∧
    c7SampleRow.timeData = none ∧ c7SampleRow.state = none := by
  refine ⟨by decide, rfl, rfl⟩

/-- Acceptance conditions of the per-row continuation after the state
check. -/
theorem buildFinishedRowAfterState_isSome_iff (now : DateTime) (row : TRow)
    (matchId : String) :
    (buildFinishedRow.buildFinishedRowAfterState now row matchId).isSome = true ↔
      (8 ≤ row.cells.length ∧
       scoreTextMatches (match (row.cells.getD 6 ⟨none, ""⟩).bText with
         | some t => ((⟨trimChars t.data⟩ : String))
         | none => (row.cells.getD 6 ⟨none, ""⟩).text).data = true ∧
       (if (splitOnChar ',' (row.odds.getD "").data).length > 2 then
          ((⟨(splitOnChar ',' (row.odds.getD "").data).getD 2 []⟩ : String))
        else "N/A") ≠ "N/A" ∧
       (∀ dt, row.timeData = some (some dt) → (strptimeYmdHMS dt).isSome = true)) := by
  unfold buildFinishedRow.buildFinishedRowAfterState
  by_cases hlen : row.cells.length < 8
  · rw [if_pos hlen]
    simp only [Option.isSome_none, Bool.false_eq_true, false_iff]
    intro hc
    omega
  · rw [if_neg hlen]
    simp only
    by_cases hsc : scoreTextMatches (match (row.cells.getD 6 ⟨none, ""⟩).bText with
        | some t => ((⟨trimChars t.data⟩ : String))
        | none => (row.cells.getD 6 ⟨none, ""⟩).text).data = true
    · rw [if_neg (fun hcontra => by rw [hsc] at hcontra; exact absurd hcontra (by decide))]
      by_cases hodds : (if (splitOnChar ',' (row.odds.getD "").data).length > 2 then
          ((⟨(splitOnChar ',' (row.odds.getD "").data).getD 2 []⟩ : String))
        else "N/A") = "N/A"
      · rw [if_pos hodds]
        simp only [Option.isSome_none, Bool.false_eq_true, false_iff]
        intro hc
        exact hc.2.2.1 hodds
      · rw [if_neg hodds]
        cases htd : row.timeData with
        | none =>
          simp only
          constructor
          · intro _
            exact ⟨by omega, hsc, hodds, fun dt hdt => absurd hdt (by simp)⟩
          · intro _
            rfl
        | some inner =>
          cases inner with
          | none =>
            simp only
            constructor
            · intro _
              exact ⟨by omega, hsc, hodds, fun dt hdt => absurd hdt (by simp)⟩
            · intro _
              rfl
          | some dt0 =>
            simp only
            cases hp : strptimeYmdHMS dt0 with
            | none =>
              simp only [Option.isSome_none, Bool.false_eq_true, false_iff]
              intro hc
              have hdt0 := hc.2.2.2 dt0 rfl
              rw [hp] at hdt0
              cases hdt0
            | some t0 =>
              simp only [Option.isSome_some, true_iff]
              refine ⟨by omega, hsc, hodds, fun dt hdt => ?_⟩
              have hdd : dt = dt0 := by
                have := hdt
                simp only [Option.some.injEq] at this
                exact this.symm
              rw [hdd, hp]
              rfl
    · rw [if_pos (by rw [Bool.eq_false_iff.mpr hsc]; rfl)]
      simp only [Option.isSome_none, Bool.false_eq_true, false_iff]
      intro hc
      exact hsc hc.2.1

/-- C7 (amended): the finished-view parser accepts a row iff its id (after
stripping the `tr1_` prefix) is non-empty, its state attribute is ABSENT or
equal to the finished sentinel `"-1"`, it has at least 8 cells, its score
text matches `^\d+\s*-\s*\d+$`, its handicap (position 2 of the
comma-separated odds attribute) is present and not `"N/A"`, and — only when
the time cell is present with a `data-t` attribute — that attribute parses
in the strict format (an absent time cell or attribute does NOT reject the
row: the kickoff silently defaults to `now`); and every returned display
entry comes from an accepted row. -/
theorem c7_finished_row_acceptance :
    (∀ (now : DateTime) (row : TRow),
      (buildFinishedRow now row).isSome = true ↔
        ((⟨replaceSub "tr1_".data [] row.rid.data⟩ : String) ≠ "" ∧
         (row.state = none ∨ row.state = some "-1") ∧
         8 ≤ row.cells.length ∧
         scoreTextMatches (match (row.cells.getD 6 ⟨none, ""⟩).bText with
           | some t => ((⟨trimChars t.data⟩ : String))
           | none => (row.cells.getD 6 ⟨none, ""⟩).text).data = true ∧
         (if (splitOnChar ',' (row.odds.getD "").data).length > 2 then
            ((⟨(splitOnChar ',' (row.odds.getD "").data).getD 2 []⟩ : String))
          else "N/A") ≠ "N/A" ∧
         (∀ dt, row.timeData = some (some dt) → (strptimeYmdHMS dt).isSome = true))) ∧
    (∀ (rows : List TRow) (now : DateTime) (limit offset : ℕ) (hf : Option String)
      (d : V2Display),
      d ∈ parse_main_page_finished_matches rows now limit offset hf →
      ∃ r ∈ rows, ("tr1_".data.isPrefixOf r.rid.data) = true ∧
        ∃ m, buildFinishedRow now r = some m ∧
          d.score = m.score ∧ d.handicap = m.handicap) := by
  constructor
  · intro now row
    unfold buildFinishedRow
    by_cases hid : (⟨replaceSub "tr1_".data [] row.rid.data⟩ : String) = ""
    · rw [if_pos hid]
      simp only [Option.isSome_none, Bool.false_eq_true, false_iff]
      intro hc
      exact hc.1 hid
    · rw [if_neg hid]
      cases hst : row.state with
      | none =>
        simp only
        rw [buildFinishedRowAfterState_isSome_iff]
        constructor
        · intro h
          exact ⟨hid, Or.inl trivial, h.1, h.2.1, h.2.2.1, h.2.2.2⟩
        · intro h
          exact ⟨h.2.2.1, h.2.2.2.1, h.2.2.2.2.1, h.2.2.2.2.2⟩
      | some st =>
        by_cases hst1 : st = "-1"
        · subst hst1
          simp only
          rw [if_neg (by simp)]
          rw [buildFinishedRowAfterState_isSome_iff]
          constructor
          · intro h
            exact ⟨hid, Or.inr trivial, h.1, h.2.1, h.2.2.1, h.2.2.2⟩
          · intro h
            exact ⟨h.2.2.1, h.2.2.2.1, h.2.2.2.2.1, h.2.2.2.2.2⟩
        · simp only
          rw [if_pos hst1]
          simp only [Option.isSome_none, Bool.false_eq_true, false_iff]
          intro hc
          rcases hc.2.1 with h | h
          · cases h
          · simp only [Option.some.injEq] at h
            exact hst1 h
  · intro rows now limit offset hf d hd
    unfold parse_main_page_finished_matches at hd
    simp only [List.mem_map] at hd
    obtain ⟨m, hm, hdisp⟩ := hd
    have hm2 : m ∈ (match hf with
        | none => (rows.filter (fun (r : TRow) => "tr1_".data.isPrefixOf r.rid.data)).filterMap
            (buildFinishedRow now)
        | some f =>
          if f = "" then (rows.filter (fun (r : TRow) => "tr1_".data.isPrefixOf r.rid.data)).filterMap
              (buildFinishedRow now)
          else
            match V2.normalize_handicap_to_half_bucket_str (some f) with
            | none => (rows.filter (fun (r : TRow) => "tr1_".data.isPrefixOf r.rid.data)).filterMap
                (buildFinishedRow now)
            | some target =>
              ((rows.filter (fun (r : TRow) => "tr1_".data.isPrefixOf r.rid.data)).filterMap
                  (buildFinishedRow now)).filter (fun m =>
                V2.normalize_handicap_to_half_bucket_str (some m.handicap) = some target)) := by
      rw [← @List.mem_mergeSort _ (fun a b => dtLe b.time_obj a.time_obj) _ _]
      exact List.mem_of_mem_drop (List.mem_of_mem_take hm)
    have hm3 : m ∈ (rows.filter (fun (r : TRow) => "tr1_".data.isPrefixOf r.rid.data)).filterMap
        (buildFinishedRow now) := by
      match hf with
      | none => exact hm2
      | some f =>
        simp only at hm2
        by_cases hf0 : f = ""
        · simpa [hf0] using hm2
        · simp only [hf0, if_false] at hm2
          cases hnorm : V2.normalize_handicap_to_half_bucket_str (some f) with
          | none => rw [hnorm] at hm2; exact hm2
          | some target => rw [hnorm] at hm2; exact (List.mem_filter.mp hm2).1
    rw [List.mem_filterMap] at hm3
    obtain ⟨r, hr, hbuild⟩ := hm3
    rw [List.mem_filter] at hr
    refine ⟨r, hr.1, hr.2, m, hbuild, ?_, ?_⟩
    · rw [← hdisp]
    · rw [← hdisp]

/-- C7 witness: the acceptance characterization and the output link
instantiated at a concrete one-row document. -/
theorem c7_finished_row_acceptance_witness :
    ∃ r ∈ [c7SampleRow], ("tr1_".data.isPrefixOf r.rid.data) = true ∧
      ∃ m, buildFinishedRow ⟨2024, 1, 1, 0, 0, 0⟩ r = some m ∧
        (({ id := "5", time := "01/01 02:00", home_team := "H", away_team := "A",
            score := "2 - 1", handicap := "0.5", goal_line := "2.5" } : V2Display)).score =
          m.score ∧
        (({ id := "5", time := "01/01 02:00", home_team := "H", away_team := "A",
            score := "2 - 1", handicap := "0.5", goal_line := "2.5" } : V2Display)).handicap =
          m.handicap := by
  have hacc : List.filterMap (buildFinishedRow ⟨2024, 1, 1, 0, 0, 0⟩)
      (List.filter (fun r => "tr1_".data.isPrefixOf r.rid.data) [c7SampleRow]) =
      [{ id := "5", time_obj := ⟨2024, 1, 1, 0, 0, 0⟩, home_team := "H", away_team := "A",
         score := "2 - 1", handicap := "0.5", goal_line := "2.5" }] := by decide
  have hparse : parse_main_page_finished_matches [c7SampleRow] ⟨2024, 1, 1, 0, 0, 0⟩ 20 0 none =
      [{ id := "5", time := "01/01 02:00", home_team := "H", away_team := "A",
         score := "2 - 1", handicap := "0.5", goal_line := "2.5" }] := by
    unfold parse_main_page_finished_matches
    rw [hacc]
    simp only [List.mergeSort_singleton]
    decide
  exact c7_finished_row_acceptance.2 [c7SampleRow] ⟨2024, 1, 1, 0, 0, 0⟩ 20 0 none
    { id := "5", time := "01/01 02:00", home_team := "H", away_team := "A",
      score := "2 - 1", handicap := "0.5", goal_line := "2.5" }
    (by rw [hparse]; exact List.mem_singleton.mpr rfl)

/-! ### C8/C10 helpers: decimal rendering round-trips through the parser -/

theorem natDigitsLoop_stable (n : ℕ) : ∀ (f1 f2 : ℕ) (acc : List Char), n < f1 → n < f2 →
    natDigitsLoop f1 n acc = natDigitsLoop f2 n acc := by
  induction n using Nat.strong_induction_on with
  | _ n ih =>
    intro f1 f2 acc h1 h2
    cases f1 with
    | zero => omega
    | succ g1 =>
      cases f2 with
      | zero => omega
      | succ g2 =>
        simp only [natDigitsLoop]
        by_cases h10 : n < 10
        · simp [h10]
        · simp only [h10, if_false]
          have hlt : n / 10 < n := Nat.div_lt_self (by omega) (by omega)
          exact ih (n / 10) hlt g1 g2 _ (by omega) (by omega)

theorem natDigitsLoop_acc (n : ℕ) : ∀ (fuel : ℕ) (acc : List Char), n < fuel →
    natDigitsLoop fuel n acc = natDigitsLoop fuel n [] ++ acc := by
  induction n using Nat.strong_induction_on with
  | _ n ih =>
    intro fuel acc h
    cases fuel with
    | zero => omega
    | succ g =>
      simp only [natDigitsLoop]
      by_cases h10 : n < 10
      · simp [h10]
      · simp only [h10, if_false]
        have hlt : n / 10 < n := Nat.div_lt_self (by omega) (by omega)
        have hg : n / 10 < g := by omega
        rw [ih (n / 10) hlt g (digitChar (n % 10) :: acc) hg,
            ih (n / 10) hlt g [digitChar (n % 10)] hg]
        simp

theorem natDigits_unfold (n : ℕ) : natDigits n =
    if n < 10 then [digitChar n] else natDigits (n / 10) ++ [digitChar (n % 10)] := by
  by_cases h10 : n < 10
  · simp [natDigits, natDigitsLoop, h10]
  · simp only [h10, if_false]
    unfold natDigits
    rw [show natDigitsLoop (n + 1) n [] = natDigitsLoop n (n / 10) [digitChar (n % 10)]
      from by simp [natDigitsLoop, h10]]
    have hlt : n / 10 < n := Nat.div_lt_self (by omega) (by omega)
    rw [natDigitsLoop_acc (n / 10) n [digitChar (n % 10)] hlt]
    rw [natDigitsLoop_stable (n / 10) n (n / 10 + 1) [] hlt (by omega)]

/-- The list of the ten decimal digit characters. -/
def decDigits : List Char := ['0', '1', '2', '3', '4', '5', '6', '7', '8', '9']

theorem digitChar_mem_decDigits (m : ℕ) (h : m < 10) : digitChar m ∈ decDigits := by
  interval_cases m <;> decide

theorem natDigits_mem_decDigits (n : ℕ) : ∀ c ∈ natDigits n, c ∈ decDigits := by
  induction n using Nat.strong_induction_on with
  | _ n ih =>
    rw [natDigits_unfold]
    by_cases h10 : n < 10
    · simp only [h10, if_true]
      intro c hc
      rw [List.mem_singleton] at hc
      subst hc
      exact digitChar_mem_decDigits n h10
    · simp only [h10, if_false]
      intro c hc
      rw [List.mem_append] at hc
      rcases hc with hc | hc
      · exact ih (n / 10) (Nat.div_lt_self (by omega) (by omega)) c hc
      · rw [List.mem_singleton] at hc
        subst hc
        exact digitChar_mem_decDigits _ (Nat.mod_lt _ (by omega))

theorem natDigits_ne_nil (n : ℕ) : natDigits n ≠ [] := by
  rw [natDigits_unfold]
  by_cases h10 : n < 10 <;> simp [h10]

theorem digitVal_digitChar (m : ℕ) (h : m < 10) : digitVal (digitChar m) = m := by
  interval_cases m <;> decide

theorem digitsToNat_natDigits (n : ℕ) : digitsToNat (natDigits n) = n := by
  induction n using Nat.strong_induction_on with
  | _ n ih =>
    rw [natDigits_unfold]
    by_cases h10 : n < 10
    · simp only [h10, if_true]
      simp [digitsToNat, digitVal_digitChar n h10]
    · simp only [h10, if_false]
      unfold digitsToNat
      rw [List.foldl_append]
      simp only [List.foldl_cons, List.foldl_nil]
      have hrec := ih (n / 10) (Nat.div_lt_self (by omega) (by omega))
      unfold digitsToNat at hrec
      rw [hrec, digitVal_digitChar _ (Nat.mod_lt _ (by omega))]
      omega

/-- Character-class facts for the ten digit characters. -/
theorem decDigit_facts (c : Char) (h : c ∈ decDigits) :
    c.isDigit = true ∧ c ≠ '.' ∧ c ≠ '-' ∧ c ≠ '+' ∧ c ≠ ' ' ∧ c ≠ ',' ∧ c ≠ '/' ∧
    c.isWhitespace = false := by
  fin_cases h <;> decide

theorem takeWhile_all_append (p : Char → Bool) (D : List Char) (x : Char)
    (rest : List Char) (hD : ∀ c ∈ D, p c = true) (hx : p x = false) :
    (D ++ x :: rest).takeWhile p = D ∧ (D ++ x :: rest).dropWhile p = x :: rest := by
  induction D with
  | nil => simp [List.takeWhile_cons, List.dropWhile_cons, hx]
  | cons d ds ih =>
    have hd : p d = true := hD d (by simp)
    have hrest := ih (fun c hc => hD c (by simp [hc]))
    simp [List.takeWhile_cons, List.dropWhile_cons, hd, hrest.1, hrest.2]

theorem takeWhile_all_self (p : Char → Bool) (D : List Char)
    (hD : ∀ c ∈ D, p c = true) :
    D.takeWhile p = D ∧ D.dropWhile p = [] := by
  induction D with
  | nil => simp
  | cons d ds ih =>
    have hd : p d = true := hD d (by simp)
    have hrest := ih (fun c hc => hD c (by simp [hc]))
    simp [List.takeWhile_cons, List.dropWhile_cons, hd, hrest.1, hrest.2]

theorem trimChars_eq_self (cs : List Char) (h : ∀ c ∈ cs, c.isWhitespace = false) :
    trimChars cs = cs := by
  have hdw : ∀ l : List Char, (∀ c ∈ l, c.isWhitespace = false) →
      l.dropWhile Char.isWhitespace = l := by
    intro l hl
    cases l with
    | nil => rfl
    | cons a t => simp [List.dropWhile_cons, hl a (by simp)]
  unfold trimChars
  rw [hdw cs h, hdw cs.reverse (fun c hc => h c (List.mem_reverse.mp hc)),
    List.reverse_reverse]

theorem contains_eq_false_of (x : Char) (cs : List Char) (h : ∀ c ∈ cs, c ≠ x) :
    cs.contains x = false := by
  induction cs with
  | nil => rfl
  | cons a t ih =>
    rw [List.contains_cons]
    have ha : (x == a) = false :=
      beq_eq_false_iff_ne.mpr (fun he => h a (by simp) he.symm)
    rw [ha, ih (fun c hc => h c (by simp [hc]))]
    rfl

theorem replaceChar_id (a b : Char) (cs : List Char) (h : ∀ c ∈ cs, c ≠ a) :
    replaceChar a b cs = cs := by
  unfold replaceChar
  have hmap : cs.map (fun c => if c = a then b else c) = cs.map id :=
    List.map_congr_left (fun c hc => by simp [h c hc])
  rw [hmap, List.map_id]

/-- The exact character shape of every non-null normalizer output:
optional minus, the decimal digits of `k / 2`, a dot, then `0` or `5`. -/
def halfChars (k : ℕ) (neg : Bool) : List Char :=
  (if neg then ['-'] else []) ++ natDigits (k / 2) ++ '.' :: [digitChar (5 * (k % 2))]

theorem Flt.den_add (x y : Flt) : (x.add y).den = x.den * y.den := rfl

theorem Flt.den_mul (x y : Flt) : (x.mul y).den = x.den * y.den := rfl

theorem Flt.den_sub (x y : Flt) : (x.sub y).den = x.den * y.den := rfl

theorem Flt.den_abs (x : Flt) : (x.abs).den = x.den := rfl

theorem Flt.den_neg (x : Flt) : (x.neg).den = x.den := rfl

theorem halfChars_mem (k : ℕ) (neg : Bool) :
    ∀ c ∈ halfChars k neg, c = '-' ∨ c = '.' ∨ c ∈ decDigits := by
  intro c hc
  unfold halfChars at hc
  rw [List.mem_append, List.mem_append] at hc
  rcases hc with (hc | hc) | hc
  · cases neg with
    | true =>
      simp only [if_true] at hc
      rw [List.mem_singleton] at hc
      exact Or.inl hc
    | false => simp at hc
  · exact Or.inr (Or.inr (natDigits_mem_decDigits _ c hc))
  · rw [List.mem_cons, List.mem_singleton] at hc
    rcases hc with hc | hc
    · exact Or.inr (Or.inl hc)
    · exact Or.inr (Or.inr (by
        subst hc
        exact digitChar_mem_decDigits _ (by omega)))

theorem halfChars_not_ws (k : ℕ) (neg : Bool) :
    ∀ c ∈ halfChars k neg, c.isWhitespace = false := by
  intro c hc
  rcases halfChars_mem k neg c hc with h | h | h
  · subst h; decide
  · subst h; decide
  · exact (decDigit_facts c h).2.2.2.2.2.2.2

theorem halfChars_no_slash (k : ℕ) (neg : Bool) :
    ∀ c ∈ halfChars k neg, c ≠ '/' := by
  intro c hc
  rcases halfChars_mem k neg c hc with h | h | h
  · subst h; decide
  · subst h; decide
  · exact (decDigit_facts c h).2.2.2.2.2.2.1

theorem halfChars_no_comma (k : ℕ) (neg : Bool) :
    ∀ c ∈ halfChars k neg, c ≠ ',' := by
  intro c hc
  rcases halfChars_mem k neg c hc with h | h | h
  · subst h; decide
  · subst h; decide
  · exact (decDigit_facts c h).2.2.2.2.2.1

theorem halfChars_no_plus (k : ℕ) (neg : Bool) :
    ∀ c ∈ halfChars k neg, c ≠ '+' := by
  intro c hc
  rcases halfChars_mem k neg c hc with h | h | h
  · subst h; decide
  · subst h; decide
  · exact (decDigit_facts c h).2.2.2.1

theorem halfChars_no_space (k : ℕ) (neg : Bool) :
    ∀ c ∈ halfChars k neg, c ≠ ' ' := by
  intro c hc
  rcases halfChars_mem k neg c hc with h | h | h
  · subst h; decide
  · subst h; decide
  · exact (decDigit_facts c h).2.2.2.2.1

/-- The nowgoal cleaner leaves a normalizer-output string untouched. -/
theorem cleanNumText_halfChars (k : ℕ) (neg : Bool) :
    NG.cleanNumText (halfChars k neg) = halfChars k neg := by
  unfold NG.cleanNumText
  rw [trimChars_eq_self _ (halfChars_not_ws k neg)]
  rw [replaceChar_id ',' '.' _ (halfChars_no_comma k neg)]
  rw [List.filter_eq_self.mpr (fun c hc => decide_eq_true (halfChars_no_plus k neg c hc))]
  rw [List.filter_eq_self.mpr (fun c hc => decide_eq_true (halfChars_no_space k neg c hc))]

/-- `(k/2).(5*(k%2))` parses back to the rational `k / 2`. -/
theorem half_val (k : ℕ) :
    ((digitsToNat (natDigits (k / 2)) : ℚ)) / 1 +
      ((digitsToNat [digitChar (5 * (k % 2))] : ℚ)) / ((10 : ℕ) ^ (1 : ℕ) : ℚ) =
      (k : ℚ) / 2 := by
  have h5 : digitsToNat [digitChar (5 * (k % 2))] = 5 * (k % 2) := by
    unfold digitsToNat
    simp only [List.foldl_cons, List.foldl_nil]
    rw [digitVal_digitChar _ (by omega)]
    omega
  rw [digitsToNat_natDigits, h5]
  have hk : k = 2 * (k / 2) + k % 2 := (Nat.div_add_mod k 2).symm
  have hkq : (k : ℚ) = 2 * ((k / 2 : ℕ) : ℚ) + ((k % 2 : ℕ) : ℚ) := by exact_mod_cast hk
  rw [hkq]
  push_cast
  field_simp
  ring

/-- `matchNumCore` on the digits-dot-digit body of a normalizer output. -/
theorem matchNumCore_halfBody (k : ℕ) :
    NG.matchNumCore (natDigits (k / 2) ++ '.' :: [digitChar (5 * (k % 2))]) =
      some (Flt.add ⟨(digitsToNat (natDigits (k / 2)) : ℤ), 1⟩
        ⟨(digitsToNat [digitChar (5 * (k % 2))] : ℤ), 10 ^ (1 : ℕ)⟩) := by
  unfold NG.matchNumCore
  simp only []
  have hD : ∀ c ∈ natDigits (k / 2), c.isDigit = true := fun c hc =>
    (decDigit_facts c (natDigits_mem_decDigits _ c hc)).1
  have hdot : ('.' : Char).isDigit = false := by decide
  have htw := takeWhile_all_append Char.isDigit (natDigits (k / 2)) '.'
    [digitChar (5 * (k % 2))] hD hdot
  rw [htw.1, htw.2]
  have hne : (natDigits (k / 2)).isEmpty = false := by
    cases hD0 : natDigits (k / 2) with
    | nil => exact absurd hD0 (natDigits_ne_nil _)
    | cons a t => rfl
  rw [hne]
  simp only [Bool.false_eq_true, if_false, if_pos rfl]
  have hd5 : (digitChar (5 * (k % 2))).isDigit = true :=
    (decDigit_facts _ (digitChar_mem_decDigits _ (by omega))).1
  simp [List.takeWhile_cons, List.dropWhile_cons, hd5]

/-- The anchored number pattern accepts a normalizer output and recovers
the exact value `±(k/2)`. -/
theorem matchNumSigned_halfChars (k : ℕ) (neg : Bool) :
    ∃ v : Flt, NG.matchNumSigned (halfChars k neg) = some v ∧ v.den = 10 ∧
      v.toRat = (if neg then -((k : ℚ) / 2) else (k : ℚ) / 2) := by
  have hcore := matchNumCore_halfBody k
  have hden : (Flt.add ⟨(digitsToNat (natDigits (k / 2)) : ℤ), 1⟩
      ⟨(digitsToNat [digitChar (5 * (k % 2))] : ℤ), 10 ^ (1 : ℕ)⟩).den = 10 := rfl
  have hval : (Flt.add ⟨(digitsToNat (natDigits (k / 2)) : ℤ), 1⟩
      ⟨(digitsToNat [digitChar (5 * (k % 2))] : ℤ), 10 ^ (1 : ℕ)⟩).toRat = (k : ℚ) / 2 := by
    rw [Flt.toRat_add _ _ (by norm_num) (by norm_num)]
    show ((digitsToNat (natDigits (k / 2)) : ℤ) : ℚ) / ((1 : ℕ) : ℚ) +
      ((digitsToNat [digitChar (5 * (k % 2))] : ℤ) : ℚ) / (((10 : ℕ) ^ (1 : ℕ) : ℕ) : ℚ) =
      (k : ℚ) / 2
    push_cast
    have := half_val k
    push_cast at this
    convert this using 2 <;> norm_num
  cases neg with
  | true =>
    refine ⟨(Flt.add ⟨(digitsToNat (natDigits (k / 2)) : ℤ), 1⟩
        ⟨(digitsToNat [digitChar (5 * (k % 2))] : ℤ), 10 ^ (1 : ℕ)⟩).neg, ?_, rfl, ?_⟩
    · show NG.matchNumSigned ('-' :: (natDigits (k / 2) ++ '.' :: [digitChar (5 * (k % 2))])) = _
      simp only [NG.matchNumSigned]
      rw [if_pos trivial, hcore]
      rfl
    · simp only [if_true]
      rw [Flt.toRat_neg, hval]
  | false =>
    have hD : halfChars k false = natDigits (k / 2) ++ '.' :: [digitChar (5 * (k % 2))] := by
      unfold halfChars
      simp
    obtain ⟨d, D', hDeq⟩ : ∃ d D', natDigits (k / 2) = d :: D' := by
      cases hD0 : natDigits (k / 2) with
      | nil => exact absurd hD0 (natDigits_ne_nil _)
      | cons a t => exact ⟨a, t, rfl⟩
    have hdfacts := decDigit_facts d (natDigits_mem_decDigits (k / 2) d (by rw [hDeq]; simp))
    refine ⟨_, ?_, hden, ?_⟩
    · have hsig : NG.matchNumSigned (halfChars k false) =
          NG.matchNumCore (halfChars k false) := by
        rw [hD, hDeq]
        show NG.matchNumSigned (d :: (D' ++ '.' :: [digitChar (5 * (k % 2))])) =
          NG.matchNumCore (d :: (D' ++ '.' :: [digitChar (5 * (k % 2))]))
        simp only [NG.matchNumSigned]
        rw [if_neg hdfacts.2.2.1, if_neg hdfacts.2.2.2.1]
      rw [hsig, hD]
      exact hcore
    · simp only [Bool.false_eq_true, if_false]
      exact hval

/-- `_parse_handicap_to_float` on a normalizer output string. -/
theorem parse_handicap_halfChars (k : ℕ) (neg : Bool) :
    ∃ v : Flt, NG.parse_handicap_to_float (some ⟨halfChars k neg⟩) = some v ∧
      0 < v.den ∧ v.toRat = (if neg then -((k : ℚ) / 2) else (k : ℚ) / 2) := by
  obtain ⟨v, hm, hden, hval⟩ := matchNumSigned_halfChars k neg
  refine ⟨v, ?_, by omega, hval⟩
  unfold NG.parse_handicap_to_float
  simp only
  rw [trimChars_eq_self _ (halfChars_not_ws k neg)]
  rw [contains_eq_false_of '/' _ (halfChars_no_slash k neg)]
  simp only [Bool.false_eq_true, if_false]
  rw [cleanNumText_halfChars]
  exact hm

theorem roundHE_nonneg (q : ℚ) (h : 0 ≤ q) : 0 ≤ Flt.roundHE q := by
  have hf : (0 : ℤ) ≤ ⌊q⌋ := Int.floor_nonneg.mpr h
  unfold Flt.roundHE
  split_ifs <;> omega

/-- `close(a, b)` computes `|a - b| < 1e-6` on the exact values. -/
theorem fclose_eq (a b : Flt) (ha : 0 < a.den) (hb : 0 < b.den) :
    NG.fclose a b = decide (|a.toRat - b.toRat| < 1 / 1000000) := by
  unfold NG.fclose
  rw [Flt.blt_eq _ _ (Nat.mul_pos ha hb) (by norm_num)]
  have h1 : ((a.sub b).abs).toRat = |a.toRat - b.toRat| := by
    rw [Flt.toRat_abs, Flt.toRat_sub _ _ (by omega) (by omega)]
  have h2 : ((⟨1, 1000000⟩ : Flt)).toRat = 1 / 1000000 := by norm_num [Flt.toRat]
  rw [h1, h2]

theorem abs_mul_signflt (nb : Bool) (X : Flt) (hX : 0 ≤ X.toRat) (hXd : 0 < X.den) :
    |(((if nb then (⟨-1, 1⟩ : Flt) else ⟨1, 1⟩)).mul X).toRat| = X.toRat ∧
    0 < (((if nb then (⟨-1, 1⟩ : Flt) else ⟨1, 1⟩)).mul X).den := by
  cases nb with
  | true =>
    constructor
    · rw [if_pos rfl, Flt.toRat_mul _ _ (by norm_num) (by omega)]
      rw [show ((⟨-1, 1⟩ : Flt)).toRat = -1 by norm_num [Flt.toRat]]
      rw [abs_mul]
      simp [abs_of_nonneg hX]
    · rw [if_pos rfl]
      simpa [Flt.den_mul] using hXd
  | false =>
    constructor
    · rw [if_neg (by simp), Flt.toRat_mul _ _ (by norm_num) (by omega)]
      rw [show ((⟨1, 1⟩ : Flt)).toRat = 1 by norm_num [Flt.toRat]]
      rw [one_mul, abs_of_nonneg hX]
    · rw [if_neg (by simp)]
      simpa [Flt.den_mul] using hXd

theorem exists_half_mag (nb : Bool) (X : Flt) (hX : 0 ≤ X.toRat) (hXd : 0 < X.den)
    (k : ℕ) (hk : X.toRat = (k : ℚ) / 2) :
    ∃ kk : ℕ, |(((if nb then (⟨-1, 1⟩ : Flt) else ⟨1, 1⟩)).mul X).toRat| = (kk : ℚ) / 2 ∧
      0 < (((if nb then (⟨-1, 1⟩ : Flt) else ⟨1, 1⟩)).mul X).den :=
  ⟨k, by rw [(abs_mul_signflt nb X hX hXd).1, hk], (abs_mul_signflt nb X hX hXd).2⟩

/-- Multiplying by a `±1.0` sign float preserves magnitude and denominator
positivity. -/
theorem abs_mul_unit (s X : Flt) (hs : s = ⟨-1, 1⟩ ∨ s = ⟨1, 1⟩)
    (hX : 0 ≤ X.toRat) (hXd : 0 < X.den) :
    |(s.mul X).toRat| = X.toRat ∧ 0 < (s.mul X).den := by
  rcases hs with h | h <;> subst h
  · constructor
    · rw [Flt.toRat_mul _ _ (by norm_num) (by omega)]
      rw [show ((⟨-1, 1⟩ : Flt)).toRat = -1 from by norm_num [Flt.toRat]]
      rw [abs_mul]
      simp [abs_of_nonneg hX]
    · simpa [Flt.den_mul] using hXd
  · constructor
    · rw [Flt.toRat_mul _ _ (by norm_num) (by omega)]
      rw [show ((⟨1, 1⟩ : Flt)).toRat = 1 from by norm_num [Flt.toRat]]
      rw [one_mul, abs_of_nonneg hX]
    · simpa [Flt.den_mul] using hXd

set_option maxHeartbeats 1000000 in
theorem bucket_range (v : Flt) (hden : 0 < v.den) :
    ∃ k : ℕ, |(NG.bucket_to_half v).1.toRat| = (k : ℚ) / 2 ∧
      0 < (NG.bucket_to_half v).1.den := by
  unfold NG.bucket_to_half
  by_cases hz : v.beq Flt.zero = true
  · rw [if_pos hz]
    exact ⟨0, by simp [Flt.toRat_zero], by simp [Flt.zero]⟩
  · rw [if_neg hz]
    simp only []
    have hAnn : 0 ≤ (v.abs).toRat := by rw [Flt.toRat_abs]; positivity
    have hAden : 0 < (v.abs).den := hden
    have hsumden : 0 < ((v.abs).add ⟨1, 1000000000⟩).den := by
      rw [Flt.den_add]
      positivity
    have hbase_nn : 0 ≤ ((v.abs).add ⟨1, 1000000000⟩).floor := by
      rw [Flt.floor_eq _ hsumden]
      apply Int.floor_nonneg.mpr
      rw [Flt.toRat_add _ _ (by omega) (by norm_num)]
      rw [show ((⟨1, 1000000000⟩ : Flt)).toRat = 1 / 1000000000 from by norm_num [Flt.toRat]]
      positivity
    have hmulden : 0 < ((v.abs).mul ⟨2, 1⟩).den := by
      rw [Flt.den_mul]
      simpa using hAden
    have hround_nn : 0 ≤ ((v.abs).mul ⟨2, 1⟩).pyRound := by
      rw [Flt.pyRound_eq _ hmulden]
      apply roundHE_nonneg
      rw [Flt.toRat_mul _ _ (by omega) (by norm_num)]
      rw [show ((⟨2, 1⟩ : Flt)).toRat = 2 from by norm_num [Flt.toRat]]
      positivity
    have hbkf_nn : 0 ≤ ((⟨((v.abs).mul ⟨2, 1⟩).pyRound, 2⟩ : Flt)).floor := by
      show 0 ≤ ((v.abs).mul ⟨2, 1⟩).pyRound / (2 : ℤ)
      exact Int.ediv_nonneg hround_nn (by norm_num)
    have hX1nn : 0 ≤ (Flt.ofInt (((v.abs).add ⟨1, 1000000000⟩).floor)).toRat := by
      rw [Flt.toRat_ofInt]
      exact_mod_cast hbase_nn
    have hX1d : 0 < (Flt.ofInt (((v.abs).add ⟨1, 1000000000⟩).floor)).den := by
      simp [Flt.ofInt]
    have hX1val : (Flt.ofInt (((v.abs).add ⟨1, 1000000000⟩).floor)).toRat =
        ((2 * (((v.abs).add ⟨1, 1000000000⟩).floor).toNat : ℕ) : ℚ) / 2 := by
      rw [Flt.toRat_ofInt]
      rw [show ((2 * (((v.abs).add ⟨1, 1000000000⟩).floor).toNat : ℕ) : ℚ) =
          2 * (((((v.abs).add ⟨1, 1000000000⟩).floor).toNat : ℤ) : ℚ) from by push_cast; ring]
      rw [Int.toNat_of_nonneg hbase_nn]
      ring
    have hX2nn : 0 ≤ ((Flt.ofInt (((v.abs).add ⟨1, 1000000000⟩).floor)).add ⟨1, 2⟩).toRat := by
      rw [Flt.toRat_add _ _ (by simp [Flt.ofInt]) (by norm_num), Flt.toRat_ofInt]
      rw [show ((⟨1, 2⟩ : Flt)).toRat = 1 / 2 from by norm_num [Flt.toRat]]
      have h0 : (0 : ℚ) ≤ ((((v.abs).add ⟨1, 1000000000⟩).floor : ℤ) : ℚ) := by
        exact_mod_cast hbase_nn
      linarith
    have hX2d : 0 < ((Flt.ofInt (((v.abs).add ⟨1, 1000000000⟩).floor)).add ⟨1, 2⟩).den := by
      rw [Flt.den_add]
      simp [Flt.ofInt]
    have hX2val : ((Flt.ofInt (((v.abs).add ⟨1, 1000000000⟩).floor)).add ⟨1, 2⟩).toRat =
        ((2 * (((v.abs).add ⟨1, 1000000000⟩).floor).toNat + 1 : ℕ) : ℚ) / 2 := by
      rw [Flt.toRat_add _ _ (by simp [Flt.ofInt]) (by norm_num), Flt.toRat_ofInt]
      rw [show ((⟨1, 2⟩ : Flt)).toRat = 1 / 2 from by norm_num [Flt.toRat]]
      rw [show ((2 * (((v.abs).add ⟨1, 1000000000⟩).floor).toNat + 1 : ℕ) : ℚ) =
          2 * (((((v.abs).add ⟨1, 1000000000⟩).floor).toNat : ℤ) : ℚ) + 1 from by
        push_cast; ring]
      rw [Int.toNat_of_nonneg hbase_nn]
      ring
    have hX3nn : 0 ≤ ((Flt.ofInt (((⟨((v.abs).mul ⟨2, 1⟩).pyRound, 2⟩ : Flt)).floor)).add
        ⟨1, 2⟩).toRat := by
      rw [Flt.toRat_add _ _ (by simp [Flt.ofInt]) (by norm_num), Flt.toRat_ofInt]
      rw [show ((⟨1, 2⟩ : Flt)).toRat = 1 / 2 from by norm_num [Flt.toRat]]
      have h0 : (0 : ℚ) ≤ ((((⟨((v.abs).mul ⟨2, 1⟩).pyRound, 2⟩ : Flt)).floor : ℤ) : ℚ) := by
        exact_mod_cast hbkf_nn
      linarith
    have hX3d : 0 < ((Flt.ofInt (((⟨((v.abs).mul ⟨2, 1⟩).pyRound, 2⟩ : Flt)).floor)).add
        ⟨1, 2⟩).den := by
      rw [Flt.den_add]
      simp [Flt.ofInt]
    have hX3val : ((Flt.ofInt (((⟨((v.abs).mul ⟨2, 1⟩).pyRound, 2⟩ : Flt)).floor)).add
        ⟨1, 2⟩).toRat =
        ((2 * (((⟨((v.abs).mul ⟨2, 1⟩).pyRound, 2⟩ : Flt)).floor).toNat + 1 : ℕ) : ℚ) / 2 := by
      rw [Flt.toRat_add _ _ (by simp [Flt.ofInt]) (by norm_num), Flt.toRat_ofInt]
      rw [show ((⟨1, 2⟩ : Flt)).toRat = 1 / 2 from by norm_num [Flt.toRat]]
      rw [show ((2 * (((⟨((v.abs).mul ⟨2, 1⟩).pyRound, 2⟩ : Flt)).floor).toNat + 1 : ℕ) : ℚ) =
          2 * (((((⟨((v.abs).mul ⟨2, 1⟩).pyRound, 2⟩ : Flt)).floor).toNat : ℤ) : ℚ) + 1 from by
        push_cast; ring]
      rw [Int.toNat_of_nonneg hbkf_nn]
      ring
    have hX4nn : 0 ≤ ((⟨((v.abs).mul ⟨2, 1⟩).pyRound, 2⟩ : Flt)).toRat := by
      unfold Flt.toRat
      have h0 : (0 : ℚ) ≤ ((((v.abs).mul ⟨2, 1⟩).pyRound : ℤ) : ℚ) := by
        exact_mod_cast hround_nn
      positivity
    have hX4d : 0 < ((⟨((v.abs).mul ⟨2, 1⟩).pyRound, 2⟩ : Flt)).den := by norm_num
    have hX4val : ((⟨((v.abs).mul ⟨2, 1⟩).pyRound, 2⟩ : Flt)).toRat =
        (((((v.abs).mul ⟨2, 1⟩).pyRound).toNat : ℕ) : ℚ) / 2 := by
      unfold Flt.toRat
      rw [show (((((v.abs).mul ⟨2, 1⟩).pyRound).toNat : ℕ) : ℚ) =
          (((((v.abs).mul ⟨2, 1⟩).pyRound).toNat : ℤ) : ℚ) from by push_cast; ring]
      rw [Int.toNat_of_nonneg hround_nn]
      norm_num
    cases hnb : v.blt Flt.zero with
    | true =>
      simp only [hnb, eq_self_iff_true, if_true]
      split_ifs with h1 h2 h3
      all_goals dsimp only
      · exact ⟨_, by rw [(abs_mul_unit _ _ (Or.inl rfl) hX1nn hX1d).1, hX1val],
          (abs_mul_unit _ _ (Or.inl rfl) hX1nn hX1d).2⟩
      · exact ⟨_, by rw [(abs_mul_unit _ _ (Or.inl rfl) hX2nn hX2d).1, hX2val],
          (abs_mul_unit _ _ (Or.inl rfl) hX2nn hX2d).2⟩
      · exact ⟨_, by rw [(abs_mul_unit _ _ (Or.inl rfl) hX3nn hX3d).1, hX3val],
          (abs_mul_unit _ _ (Or.inl rfl) hX3nn hX3d).2⟩
      · exact ⟨_, by rw [(abs_mul_unit _ _ (Or.inl rfl) hX4nn hX4d).1, hX4val],
          (abs_mul_unit _ _ (Or.inl rfl) hX4nn hX4d).2⟩
    | false =>
      simp only [hnb, Bool.false_eq_true, if_false]
      split_ifs with h1 h2 h3
      all_goals dsimp only
      · exact ⟨_, by rw [(abs_mul_unit _ _ (Or.inr rfl) hX1nn hX1d).1, hX1val],
          (abs_mul_unit _ _ (Or.inr rfl) hX1nn hX1d).2⟩
      · exact ⟨_, by rw [(abs_mul_unit _ _ (Or.inr rfl) hX2nn hX2d).1, hX2val],
          (abs_mul_unit _ _ (Or.inr rfl) hX2nn hX2d).2⟩
      · exact ⟨_, by rw [(abs_mul_unit _ _ (Or.inr rfl) hX3nn hX3d).1, hX3val],
          (abs_mul_unit _ _ (Or.inr rfl) hX3nn hX3d).2⟩
      · exact ⟨_, by rw [(abs_mul_unit _ _ (Or.inr rfl) hX4nn hX4d).1, hX4val],
          (abs_mul_unit _ _ (Or.inr rfl) hX4nn hX4d).2⟩

theorem mul_neg1_val (X : Flt) (hXd : 0 < X.den) :
    ((⟨-1, 1⟩ : Flt).mul X).toRat = -X.toRat := by
  rw [Flt.toRat_mul _ _ (by norm_num) (by omega)]
  rw [show ((⟨-1, 1⟩ : Flt)).toRat = -1 from by norm_num [Flt.toRat]]
  ring

theorem mul_pos1_val (X : Flt) (hXd : 0 < X.den) :
    ((⟨1, 1⟩ : Flt).mul X).toRat = X.toRat := by
  rw [Flt.toRat_mul _ _ (by norm_num) (by omega)]
  rw [show ((⟨1, 1⟩ : Flt)).toRat = 1 from by norm_num [Flt.toRat]]
  ring

set_option maxHeartbeats 2000000 in
/-- On an exact non-zero half-integer input `±(k/2)`, `_bucket_to_half`
returns the value unchanged, and the sign bit records the input's sign. -/
theorem bucket_half_fixed (v : Flt) (hden : 0 < v.den) (k : ℕ) (hk : k ≠ 0)
    (hval : v.toRat = (k : ℚ) / 2 ∨ v.toRat = -((k : ℚ) / 2)) :
    (NG.bucket_to_half v).1.toRat = v.toRat ∧ 0 < (NG.bucket_to_half v).1.den ∧
      ((NG.bucket_to_half v).2 = true ↔ v.toRat < 0) := by
  have hkpos : (0 : ℚ) < (k : ℚ) / 2 := by
    have : (0 : ℚ) < (k : ℚ) := by exact_mod_cast Nat.pos_of_ne_zero hk
    linarith
  have hvne : v.toRat ≠ 0 := by
    rcases hval with h | h <;> rw [h] <;> intro hc <;> nlinarith
  have hbeqf : v.beq Flt.zero = false := by
    rw [Flt.beq_eq _ _ hden (by norm_num [Flt.zero]), Flt.toRat_zero]
    exact decide_eq_false hvne
  have habs : (v.abs).toRat = (k : ℚ) / 2 := by
    rw [Flt.toRat_abs]
    rcases hval with h | h <;> rw [h]
    · exact abs_of_pos hkpos
    · rw [abs_neg]
      exact abs_of_pos hkpos
  have hAden : 0 < (v.abs).den := hden
  have hsumden : 0 < ((v.abs).add ⟨1, 1000000000⟩).den := by
    rw [Flt.den_add]
    positivity
  have hsumval : ((v.abs).add ⟨1, 1000000000⟩).toRat = (k : ℚ) / 2 + 1 / 1000000000 := by
    rw [Flt.toRat_add _ _ (by omega) (by norm_num), habs]
    rw [show ((⟨1, 1000000000⟩ : Flt)).toRat = 1 / 1000000000 from by norm_num [Flt.toRat]]
  obtain ⟨m, hm⟩ : ∃ m : ℕ, k = 2 * m ∨ k = 2 * m + 1 := ⟨k / 2, by omega⟩
  have hfloorbase : ((v.abs).add ⟨1, 1000000000⟩).floor = (m : ℤ) := by
    rw [Flt.floor_eq _ hsumden, hsumval]
    rcases hm with hm | hm <;> subst hm
    · rw [show ((2 * m : ℕ) : ℚ) / 2 = ((m : ℤ) : ℚ) from by push_cast; ring]
      refine Int.floor_eq_iff.mpr ⟨?_, ?_⟩
      · have h9 : (0 : ℚ) < 1 / 1000000000 := by norm_num
        linarith
      · have h9 : (1 / 1000000000 : ℚ) < 1 := by norm_num
        push_cast
        linarith
    · rw [show ((2 * m + 1 : ℕ) : ℚ) / 2 = ((m : ℤ) : ℚ) + 1 / 2 from by push_cast; ring]
      refine Int.floor_eq_iff.mpr ⟨?_, ?_⟩
      · have h9 : (0 : ℚ) < 1 / 2 + 1 / 1000000000 := by norm_num
        linarith
      · have h9 : (1 / 2 + 1 / 1000000000 : ℚ) < 1 := by norm_num
        push_cast
        linarith
  have hfrac_den : 0 < ((v.abs).sub
      (Flt.ofInt (((v.abs).add ⟨1, 1000000000⟩).floor))).den := by
    rw [Flt.den_sub]
    simpa [Flt.ofInt] using hden
  have hfracval : ((v.abs).sub
      (Flt.ofInt (((v.abs).add ⟨1, 1000000000⟩).floor))).toRat =
      (k : ℚ) / 2 - (m : ℚ) := by
    rw [Flt.toRat_sub _ _ (by omega) (by simp [Flt.ofInt]), habs, hfloorbase,
      Flt.toRat_ofInt]
    norm_num
  have hnbval : v.blt Flt.zero = decide (v.toRat < 0) := by
    rw [Flt.blt_eq _ _ hden (by norm_num [Flt.zero]), Flt.toRat_zero]
  unfold NG.bucket_to_half
  rw [hbeqf]
  simp only [Bool.false_eq_true, if_false]
  rcases hm with hm | hm
  · -- even: the fraction is zero, first branch taken
    have hc1 : NG.fclose ((v.abs).sub
        (Flt.ofInt (((v.abs).add ⟨1, 1000000000⟩).floor))) Flt.zero = true := by
      rw [fclose_eq _ _ hfrac_den (by norm_num [Flt.zero]), hfracval, Flt.toRat_zero]
      apply decide_eq_true
      subst hm
      rw [show ((2 * m : ℕ) : ℚ) / 2 - (m : ℚ) = 0 from by push_cast; ring]
      norm_num
    rw [hc1]
    simp only [eq_self_iff_true, if_true]
    rw [hfloorbase]
    rcases hval with hv | hv
    · have hnb : v.blt Flt.zero = false := by
        rw [hnbval]
        apply decide_eq_false
        rw [hv]
        linarith
      rw [hnb]
      simp only [Bool.false_eq_true, if_false]
      refine ⟨?_, ?_, ?_⟩
      · rw [mul_pos1_val _ (by simp [Flt.ofInt]), Flt.toRat_ofInt, hv]
        subst hm
        push_cast
        ring
      · simp [Flt.den_mul, Flt.ofInt]
      · simp only [Bool.false_eq_true, false_iff, not_lt]
        rw [hv]
        linarith
    · have hnb : v.blt Flt.zero = true := by
        rw [hnbval]
        apply decide_eq_true
        rw [hv]
        linarith
      rw [hnb]
      simp only [eq_self_iff_true, if_true]
      refine ⟨?_, ?_, ?_⟩
      · rw [mul_neg1_val _ (by simp [Flt.ofInt]), Flt.toRat_ofInt, hv]
        subst hm
        push_cast
        ring
      · simp [Flt.den_mul, Flt.ofInt]
      · simp only [true_iff]
        rw [hv]
        linarith
  · -- odd: the fraction is one half, second branch taken
    have hc1 : NG.fclose ((v.abs).sub
        (Flt.ofInt (((v.abs).add ⟨1, 1000000000⟩).floor))) Flt.zero = false := by
      rw [fclose_eq _ _ hfrac_den (by norm_num [Flt.zero]), hfracval, Flt.toRat_zero]
      apply decide_eq_false
      subst hm
      rw [show ((2 * m + 1 : ℕ) : ℚ) / 2 - (m : ℚ) = 1 / 2 from by push_cast; ring]
      rw [sub_zero, show |(1 / 2 : ℚ)| = 1 / 2 from abs_of_pos (by norm_num)]
      norm_num
    have hc2 : NG.fclose ((v.abs).sub
        (Flt.ofInt (((v.abs).add ⟨1, 1000000000⟩).floor))) ⟨1, 2⟩ = true := by
      rw [fclose_eq _ _ hfrac_den (by norm_num), hfracval]
      apply decide_eq_true
      subst hm
      rw [show ((⟨1, 2⟩ : Flt)).toRat = 1 / 2 from by norm_num [Flt.toRat]]
      rw [show ((2 * m + 1 : ℕ) : ℚ) / 2 - (m : ℚ) - 1 / 2 = 0 from by push_cast; ring]
      norm_num
    rw [hc1]
    simp only [Bool.false_eq_true, if_false]
    rw [hc2]
    simp only [Bool.true_or, eq_self_iff_true, if_true]
    rw [hfloorbase]
    rcases hval with hv | hv
    · have hnb : v.blt Flt.zero = false := by
        rw [hnbval]
        apply decide_eq_false
        rw [hv]
        linarith
      rw [hnb]
      simp only [Bool.false_eq_true, if_false]
      refine ⟨?_, ?_, ?_⟩
      · rw [mul_pos1_val _ (by rw [Flt.den_add]; simp [Flt.ofInt])]
        rw [Flt.toRat_add _ _ (by simp [Flt.ofInt]) (by norm_num), Flt.toRat_ofInt]
        rw [show ((⟨1, 2⟩ : Flt)).toRat = 1 / 2 from by norm_num [Flt.toRat], hv]
        subst hm
        push_cast
        ring
      · simp [Flt.den_mul, Flt.den_add, Flt.ofInt]
      · simp only [Bool.false_eq_true, false_iff, not_lt]
        rw [hv]
        linarith
    · have hnb : v.blt Flt.zero = true := by
        rw [hnbval]
        apply decide_eq_true
        rw [hv]
        linarith
      rw [hnb]
      simp only [eq_self_iff_true, if_true]
      refine ⟨?_, ?_, ?_⟩
      · rw [mul_neg1_val _ (by rw [Flt.den_add]; simp [Flt.ofInt])]
        rw [Flt.toRat_add _ _ (by simp [Flt.ofInt]) (by norm_num), Flt.toRat_ofInt]
        rw [show ((⟨1, 2⟩ : Flt)).toRat = 1 / 2 from by norm_num [Flt.toRat], hv]
        subst hm
        push_cast
        ring
      · simp [Flt.den_mul, Flt.den_add, Flt.ofInt]
      · simp only [true_iff]
        rw [hv]
        linarith

/-- Rendering with one decimal digit of a float whose magnitude is `k/2`
gives exactly the canonical half-bucket string. -/
theorem fmtDot1_half (b : Flt) (negBit : Bool) (k : ℕ) (hden : 0 < b.den)
    (hval : |b.toRat| = (k : ℚ) / 2) :
    NG.fmtDot1 b negBit = ⟨halfChars k negBit⟩ := by
  unfold NG.fmtDot1
  have hmd : 0 < ((b.abs).mul ⟨10, 1⟩).den := by
    rw [Flt.den_mul, Flt.den_abs]
    show 0 < b.den * 1
    omega
  have hmv : ((b.abs).mul ⟨10, 1⟩).toRat = (((5 * k : ℕ) : ℤ) : ℚ) := by
    rw [Flt.toRat_mul _ _ (by rw [Flt.den_abs]; omega) (by norm_num), Flt.toRat_abs, hval]
    rw [show ((⟨10, 1⟩ : Flt)).toRat = 10 from by norm_num [Flt.toRat]]
    push_cast
    ring
  have hr : ((b.abs).mul ⟨10, 1⟩).pyRound = ((5 * k : ℕ) : ℤ) := by
    rw [Flt.pyRound_eq _ hmd, hmv]
    exact Flt.roundHE_intCast _
  rw [hr]
  simp only [Int.toNat_natCast]
  rw [show 5 * k / 10 = k / 2 from by omega,
    show 5 * k % 10 = 5 * (k % 2) from by omega]
  unfold halfChars
  rw [natDigits_unfold (5 * (k % 2)),
    if_pos (show 5 * (k % 2) < 10 from by omega)]

theorem matchNumCore_den_pos (cs : List Char) (v : Flt)
    (h : NG.matchNumCore cs = some v) : 0 < v.den := by
  unfold NG.matchNumCore at h
  simp only [] at h
  by_cases he : (cs.takeWhile Char.isDigit).isEmpty = true
  · rw [he] at h
    simp at h
  · rw [Bool.eq_false_iff.mpr he] at h
    simp only [Bool.false_eq_true, if_false] at h
    cases hrest : cs.dropWhile Char.isDigit with
    | nil =>
      rw [hrest] at h
      simp only [Option.some.injEq] at h
      subst h
      norm_num
    | cons c rest2 =>
      rw [hrest] at h
      simp only [] at h
      by_cases hc : c = '.'
      · rw [if_pos hc] at h
        by_cases hf : (rest2.takeWhile Char.isDigit).isEmpty = true
        · rw [hf] at h
          simp at h
        · rw [Bool.eq_false_iff.mpr hf] at h
          simp only [Bool.false_eq_true, if_false] at h
          by_cases hr3 : (rest2.dropWhile Char.isDigit).isEmpty = true
          · rw [hr3] at h
            simp only [if_true, Option.some.injEq] at h
            subst h
            rw [Flt.den_add]
            positivity
          · rw [Bool.eq_false_iff.mpr hr3] at h
            simp at h
      · rw [if_neg hc] at h
        cases h

theorem matchNumSigned_den_pos (cs : List Char) (v : Flt)
    (h : NG.matchNumSigned cs = some v) : 0 < v.den := by
  unfold NG.matchNumSigned at h
  cases cs with
  | nil => cases h
  | cons c rest =>
    simp only [] at h
    by_cases hm : c = '-'
    · rw [if_pos hm] at h
      rcases Option.map_eq_some'.mp h with ⟨w, hw, hvw⟩
      subst hvw
      rw [Flt.den_neg]
      exact matchNumCore_den_pos _ _ hw
    · rw [if_neg hm] at h
      by_cases hp : c = '+'
      · rw [if_pos hp] at h
        exact matchNumCore_den_pos _ _ h
      · rw [if_neg hp] at h
        exact matchNumCore_den_pos _ _ h

theorem mapMOpt_den_pos (g : List Char → Option Flt)
    (hg : ∀ p r, g p = some r → 0 < r.den)
    (l : List (List Char)) (xs : List Flt) (h : mapMOpt g l = some xs) :
    ∀ x ∈ xs, 0 < x.den := by
  induction l generalizing xs with
  | nil =>
    unfold mapMOpt at h
    simp only [Option.some.injEq] at h
    subst h
    intro x hx
    cases hx
  | cons a as ih =>
    unfold mapMOpt at h
    cases hga : g a with
    | none => rw [hga] at h; cases h
    | some b =>
      rw [hga] at h
      simp only [] at h
      cases hmas : mapMOpt g as with
      | none => rw [hmas] at h; cases h
      | some bs =>
        rw [hmas] at h
        simp only [Option.some.injEq] at h
        subst h
        intro x hx
        rcases List.mem_cons.mp hx with hx | hx
        · subst hx
          exact hg a x hga
        · exact ih bs hmas x hx

theorem foldl_add_den_pos (l : List Flt) (z : Flt) (hz : 0 < z.den)
    (hl : ∀ x ∈ l, 0 < x.den) : 0 < (l.foldl Flt.add z).den := by
  induction l generalizing z with
  | nil => exact hz
  | cons a as ih =>
    rw [List.foldl_cons]
    refine ih (z.add a) ?_ ?_
    · rw [Flt.den_add]
      exact Nat.mul_pos hz (hl a (List.mem_cons_self a as))
    · intro x hx
      exact hl x (List.mem_cons_of_mem a hx)

theorem parse_handicap_den_pos (t : Option String) (v : Flt)
    (h : NG.parse_handicap_to_float t = some v) : 0 < v.den := by
  unfold NG.parse_handicap_to_float at h
  cases t with
  | none => cases h
  | some s =>
    simp only [] at h
    by_cases hsl : (trimChars s.data).contains '/' = true
    · rw [if_pos hsl] at h
      cases hm : mapMOpt (fun p => NG.matchNumSigned (NG.cleanNumText p))
          ((splitOnChar '/' (trimChars s.data)).filter (fun p => ¬p.isEmpty)) with
      | none => rw [hm] at h; cases h
      | some nums =>
        rw [hm] at h
        simp only [] at h
        by_cases hne : nums.isEmpty = true
        · rw [hne] at h
          simp at h
        · rw [Bool.eq_false_iff.mpr hne] at h
          simp only [Bool.false_eq_true, if_false, Option.some.injEq] at h
          subst h
          show 0 < (nums.foldl Flt.add Flt.zero).den * nums.length
          refine Nat.mul_pos ?_ ?_
          · refine foldl_add_den_pos nums Flt.zero (by norm_num [Flt.zero]) ?_
            intro x hx
            exact mapMOpt_den_pos _ (fun p r hp => matchNumSigned_den_pos _ _ hp)
              _ nums hm x hx
          · cases nums with
            | nil => exact absurd rfl hne
            | cons a as => simp
    · rw [if_neg hsl] at h
      exact matchNumSigned_den_pos _ _ h

/-- Every string the normalizer returns has the canonical half-bucket shape. -/
theorem normalize_output_form (t : Option String) (s : String)
    (h : NG.normalize_handicap_to_half_bucket_str t = some s) :
    ∃ (v : Flt) (k : ℕ), NG.parse_handicap_to_float t = some v ∧
      s = ⟨halfChars k (NG.bucket_to_half v).2⟩ ∧
      |(NG.bucket_to_half v).1.toRat| = (k : ℚ) / 2 ∧
      0 < (NG.bucket_to_half v).1.den := by
  unfold NG.normalize_handicap_to_half_bucket_str at h
  cases hp : NG.parse_handicap_to_float t with
  | none => rw [hp] at h; cases h
  | some v =>
    rw [hp] at h
    have hden := parse_handicap_den_pos t v hp
    obtain ⟨k, hmag, hbden⟩ := bucket_range v hden
    refine ⟨v, k, rfl, ?_, hmag, hbden⟩
    simp only [Option.some.injEq] at h
    rw [← h]
    exact fmtDot1_half _ _ k hbden hmag

/-- C8 counterexample: normalization is not idempotent at the IEEE negative
zero.  The input "-0.0000001" normalizes to "-0.0" (sign bit of `-1.0 * 0.0`),
but normalizing "-0.0" again yields "0.0", a different string. -/
theorem c8_idempotence_fails_at_negative_zero :
    NG.normalize_handicap_to_half_bucket_str (some "-0.0000001") = some "-0.0" ∧
      NG.normalize_handicap_to_half_bucket_str (some "-0.0") = some "0.0" ∧
      some "0.0" ≠ some "-0.0" := by
  refine ⟨by decide, by decide, by decide⟩

set_option maxHeartbeats 1000000 in
/-- C8 (amended): the normalizer is idempotent on every output except the
negative-zero string "-0.0": if `normalize t = some s` and `s ≠ "-0.0"`,
then `normalize (some s) = some s`. -/
theorem c8_normalize_idempotent_off_neg_zero (t : Option String) (s : String)
    (h : NG.normalize_handicap_to_half_bucket_str t = some s) (hs : s ≠ "-0.0") :
    NG.normalize_handicap_to_half_bucket_str (some s) = some s := by
  obtain ⟨v, k, hp, hsform, hmag, hbden⟩ := normalize_output_form t s h
  by_cases hk : k = 0
  · subst hk
    cases hbit : (NG.bucket_to_half v).2 with
    | true =>
      exfalso
      apply hs
      rw [hsform, hbit]
      decide
    | false =>
      rw [hsform, hbit]
      decide
  · obtain ⟨w, hw, hwden, hwval⟩ := parse_handicap_halfChars k (NG.bucket_to_half v).2
    have hkq : (0 : ℚ) < (k : ℚ) / 2 := by
      have hk0 : (0 : ℚ) < (k : ℚ) := by exact_mod_cast Nat.pos_of_ne_zero hk
      linarith
    have hvor : w.toRat = (k : ℚ) / 2 ∨ w.toRat = -((k : ℚ) / 2) := by
      cases hbit : (NG.bucket_to_half v).2 with
      | true =>
        rw [hbit, if_pos rfl] at hwval
        exact Or.inr hwval
      | false =>
        rw [hbit] at hwval
        simp only [Bool.false_eq_true, if_false] at hwval
        exact Or.inl hwval
    have hfix := bucket_half_fixed w hwden k hk hvor
    have hbit2 : (NG.bucket_to_half w).2 = (NG.bucket_to_half v).2 := by
      cases hbit : (NG.bucket_to_half v).2 with
      | true =>
        rw [hbit, if_pos rfl] at hwval
        have hlt : w.toRat < 0 := by
          rw [hwval]
          linarith
        exact hfix.2.2.mpr hlt
      | false =>
        rw [hbit] at hwval
        simp only [Bool.false_eq_true, if_false] at hwval
        have hnl : ¬w.toRat < 0 := by
          rw [hwval]
          linarith
        cases hb2 : (NG.bucket_to_half w).2 with
        | true => exact absurd (hfix.2.2.mp hb2) hnl
        | false => rfl
    have hmag2 : |(NG.bucket_to_half w).1.toRat| = (k : ℚ) / 2 := by
      rw [hfix.1]
      rcases hvor with hv | hv
      · rw [hv]
        exact abs_of_pos hkq
      · rw [hv, abs_neg]
        exact abs_of_pos hkq
    rw [hsform]
    unfold NG.normalize_handicap_to_half_bucket_str
    rw [hw]
    show some (NG.fmtDot1 (NG.bucket_to_half w).1 (NG.bucket_to_half w).2) = _
    rw [fmtDot1_half _ _ k hfix.2.1 hmag2, hbit2]

/-- C8 witness: the amended idempotence theorem at the concrete input
"0.25", whose normalization is "0.5". -/
theorem c8_normalize_idempotent_off_neg_zero_witness :
    NG.normalize_handicap_to_half_bucket_str (some "0.25") = some "0.5" ∧
      "0.5" ≠ "-0.0" ∧
      NG.normalize_handicap_to_half_bucket_str (some "0.5") = some "0.5" :=
  ⟨by decide, by decide,
    c8_normalize_idempotent_off_neg_zero (some "0.25") "0.5" (by decide) (by decide)⟩

theorem pyFloatBody_halfBody (k : ℕ) :
    pyFloatBody (natDigits (k / 2) ++ '.' :: [digitChar (5 * (k % 2))]) =
      some (Flt.add ⟨(digitsToNat (natDigits (k / 2)) : ℤ), 1⟩
        ⟨(digitsToNat [digitChar (5 * (k % 2))] : ℤ), 10 ^ (1 : ℕ)⟩) := by
  unfold pyFloatBody
  simp only []
  have hD : ∀ c ∈ natDigits (k / 2), c.isDigit = true := fun c hc =>
    (decDigit_facts c (natDigits_mem_decDigits _ c hc)).1
  have hdot : ('.' : Char).isDigit = false := by decide
  have htw := takeWhile_all_append Char.isDigit (natDigits (k / 2)) '.'
    [digitChar (5 * (k % 2))] hD hdot
  rw [htw.1, htw.2]
  have hne : (natDigits (k / 2)).isEmpty = false := by
    cases hD0 : natDigits (k / 2) with
    | nil => exact absurd hD0 (natDigits_ne_nil _)
    | cons a t => rfl
  have hd5 : (digitChar (5 * (k % 2))).isDigit = true :=
    (decDigit_facts _ (digitChar_mem_decDigits _ (by omega))).1
  simp [List.takeWhile_cons, List.dropWhile_cons, hd5, hne]

/-- Python `float()` accepts every normalizer output and recovers `±(k/2)`. -/
theorem pyFloat_halfChars (k : ℕ) (neg : Bool) :
    ∃ v : Flt, pyFloatOfChars (halfChars k neg) = some v ∧
      v.toRat = (if neg then -((k : ℚ) / 2) else (k : ℚ) / 2) := by
  have hcore := pyFloatBody_halfBody k
  have hval : (Flt.add ⟨(digitsToNat (natDigits (k / 2)) : ℤ), 1⟩
      ⟨(digitsToNat [digitChar (5 * (k % 2))] : ℤ), 10 ^ (1 : ℕ)⟩).toRat = (k : ℚ) / 2 := by
    rw [Flt.toRat_add _ _ (by norm_num) (by norm_num)]
    show ((digitsToNat (natDigits (k / 2)) : ℤ) : ℚ) / ((1 : ℕ) : ℚ) +
      ((digitsToNat [digitChar (5 * (k % 2))] : ℤ) : ℚ) / (((10 : ℕ) ^ (1 : ℕ) : ℕ) : ℚ) =
      (k : ℚ) / 2
    push_cast
    have := half_val k
    push_cast at this
    convert this using 2 <;> norm_num
  have htrim : trimChars (halfChars k neg) = halfChars k neg :=
    trimChars_eq_self _ (halfChars_not_ws k neg)
  cases neg with
  | true =>
    have hDt : halfChars k true =
        '-' :: (natDigits (k / 2) ++ '.' :: [digitChar (5 * (k % 2))]) := rfl
    refine ⟨(Flt.add ⟨(digitsToNat (natDigits (k / 2)) : ℤ), 1⟩
        ⟨(digitsToNat [digitChar (5 * (k % 2))] : ℤ), 10 ^ (1 : ℕ)⟩).neg, ?_, ?_⟩
    · unfold pyFloatOfChars
      simp only []
      rw [htrim, hDt]
      simp only []
      rw [if_pos trivial, hcore]
      rfl
    · simp only [if_true]
      rw [Flt.toRat_neg, hval]
  | false =>
    have hD : halfChars k false = natDigits (k / 2) ++ '.' :: [digitChar (5 * (k % 2))] := by
      unfold halfChars
      simp
    obtain ⟨d, D', hDeq⟩ : ∃ d D', natDigits (k / 2) = d :: D' := by
      cases hD0 : natDigits (k / 2) with
      | nil => exact absurd hD0 (natDigits_ne_nil _)
      | cons a t => exact ⟨a, t, rfl⟩
    have hdfacts := decDigit_facts d (natDigits_mem_decDigits (k / 2) d (by rw [hDeq]; simp))
    refine ⟨Flt.add ⟨(digitsToNat (natDigits (k / 2)) : ℤ), 1⟩
      ⟨(digitsToNat [digitChar (5 * (k % 2))] : ℤ), 10 ^ (1 : ℕ)⟩, ?_, ?_⟩
    · unfold pyFloatOfChars
      simp only []
      rw [htrim, hD, hDeq]
      show (match d :: (D' ++ '.' :: [digitChar (5 * (k % 2))]) with
        | [] => none
        | c :: rest =>
          if c = '-' then (pyFloatBody rest).map Flt.neg
          else if c = '+' then pyFloatBody rest
          else pyFloatBody (c :: rest)) = _
      simp only []
      rw [if_neg hdfacts.2.2.1, if_neg hdfacts.2.2.2.1]
      rw [show (d : Char) :: (D' ++ '.' :: [digitChar (5 * (k % 2))]) =
        natDigits (k / 2) ++ '.' :: [digitChar (5 * (k % 2))] from by rw [hDeq]; rfl]
      rw [← hDeq]
      exact hcore
    · simp only [Bool.false_eq_true, if_false]
      exact hval

/-- C10: every non-null normalizer output has the shape `-?\d+\.(0|5)` —
an optional minus, a non-empty run of decimal digits, a dot, and a final
digit that is '0' or '5' — and Python `float()` parses it back to the
half-integer `±(k/2)`; consequently the float-keyed ascending sort in
`collect_handicap_options` can never hit a parse failure, for any list of
handicap cells. -/
theorem c10_outputs_are_half_steps_and_float_safe :
    (∀ (t : Option String) (s : String),
        NG.normalize_handicap_to_half_bucket_str t = some s →
        ∃ (k : ℕ) (neg : Bool) (v : Flt),
          s.data = (if neg then ['-'] else []) ++ natDigits (k / 2) ++
            '.' :: [digitChar (5 * (k % 2))] ∧
          natDigits (k / 2) ≠ [] ∧
          (∀ c ∈ natDigits (k / 2), c.isDigit = true) ∧
          (digitChar (5 * (k % 2)) = '0' ∨ digitChar (5 * (k % 2)) = '5') ∧
          pyFloatOfChars s.data = some v ∧
          v.toRat = (if neg then -((k : ℚ) / 2) else (k : ℚ) / 2)) ∧
      ∀ hs : List (Option String), (collect_handicap_options hs).isSome = true := by
  constructor
  · intro t s h
    obtain ⟨v0, k, hp, hsform, hmag, hbden⟩ := normalize_output_form t s h
    obtain ⟨fv, hfv, hfval⟩ := pyFloat_halfChars k (NG.bucket_to_half v0).2
    refine ⟨k, (NG.bucket_to_half v0).2, fv, ?_, natDigits_ne_nil _, ?_, ?_, ?_, hfval⟩
    · rw [hsform]
      rfl
    · intro c hc
      exact (decDigit_facts c (natDigits_mem_decDigits _ c hc)).1
    · rcases Nat.mod_two_eq_zero_or_one k with h2 | h2 <;> rw [h2]
      · left
        rfl
      · right
        rfl
    · rw [hsform]
      exact hfv
  · intro hs
    unfold collect_handicap_options
    simp only []
    have hall : ((hs.filterMap NG.normalize_handicap_to_half_bucket_str).dedup).all
        (fun s => (pyFloatOfChars s.data).isSome) = true := by
      rw [List.all_eq_true]
      intro s hsmem
      have hs2 : s ∈ hs.filterMap NG.normalize_handicap_to_half_bucket_str :=
        List.mem_dedup.mp hsmem
      obtain ⟨t, ht, hnorm⟩ := List.mem_filterMap.mp hs2
      obtain ⟨v0, k, hp, hsform, hm1, hm2⟩ := normalize_output_form t s hnorm
      obtain ⟨fv, hfv, hfval⟩ := pyFloat_halfChars k (NG.bucket_to_half v0).2
      rw [hsform]
      show (pyFloatOfChars (halfChars k (NG.bucket_to_half v0).2)).isSome = true
      rw [hfv]
      rfl
    rw [if_pos hall]
    rfl

/-- C10 witness: the shape/float-safety theorem instantiated at the input
"0.25" (output "0.5") and at the option list `[some "0.25"]`. -/
theorem c10_outputs_are_half_steps_and_float_safe_witness :
    (∃ (k : ℕ) (neg : Bool) (v : Flt),
        ("0.5" : String).data = (if neg then ['-'] else []) ++ natDigits (k / 2) ++
          '.' :: [digitChar (5 * (k % 2))] ∧
        natDigits (k / 2) ≠ [] ∧
        (∀ c ∈ natDigits (k / 2), c.isDigit = true) ∧
        (digitChar (5 * (k % 2)) = '0' ∨ digitChar (5 * (k % 2)) = '5') ∧
        pyFloatOfChars ("0.5" : String).data = some v ∧
        v.toRat = (if neg then -((k : ℚ) / 2) else (k : ℚ) / 2)) ∧
      (collect_handicap_options [some "0.25"]).isSome = true :=
  ⟨c10_outputs_are_half_steps_and_float_safe.1 (some "0.25") "0.5" (by decide),
    c10_outputs_are_half_steps_and_float_safe.2 [some "0.25"]⟩
